import Mathlib

/-!
Cross-cluster replication event cache (common/persistence/xdc_cache.go).

A shallow embedding of the XDC cache: the key and value types, size accounting,
the cache constructor, Put and Get with their duplicate-write diagnostics, the
version-history locator GetXDCCacheValue and the base-info copier.

Modelling conventions.

* A Go pointer to a message is an `Option` (`none` is the nil pointer).
* A Go slice is an `Option (List _)`: `none` is the nil slice, `some []` an
  allocated slice of length zero. Ranging over either visits nothing.
* `int64` fields that are only stored and compared are `Int`; the Go `int`
  accumulator of CacheSize wraps at 64 bits (`wrapInt`).
* The three collaborators that the source reaches through Go interfaces
  (cache.Cache, log.Logger, serialization.Serializer) are explicit parameters:
  the store is a method table over an arbitrary state type, the logger is the
  list of entries emitted so far, the serializer is an arbitrary function
  together with the list of blobs it has been asked to deserialize.
-/

namespace XDC

/-! ## Data model -/

/-- Identity of a workflow execution (definition.WorkflowKey). -/
structure WorkflowKey where
  NamespaceID : String
  WorkflowID : String
  RunID : String
deriving DecidableEq, Repr

/-- Composite cache key; MinEventID is inclusive. -/
structure XDCCacheKey where
  WorkflowKey : WorkflowKey
  MinEventID : Int
  Version : Int
deriving DecidableEq, Repr

/-- Base-execution metadata (workflowspb.BaseExecutionInfo), its three scalar fields. -/
structure BaseExecutionInfo where
  RunId : String
  LowestCommonAncestorEventId : Int
  LowestCommonAncestorEventVersion : Int
deriving DecidableEq, Repr

/-- One version-history checkpoint (historyspb.VersionHistoryItem). -/
structure VersionHistoryItem where
  EventId : Int
  Version : Int
deriving DecidableEq, Repr

/-- A serialized event batch (commonpb.DataBlob): encoding tag and payload bytes. -/
structure DataBlob where
  EncodingType : Int
  Data : List Nat
deriving DecidableEq, Repr

/-- A history event (historypb.HistoryEvent), abridged to the fields that identify it. -/
structure HistoryEvent where
  EventId : Int
  Version : Int
deriving DecidableEq, Repr

/-- The cached slice of history. -/
structure XDCCacheValue where
  BaseWorkflowInfo : Option BaseExecutionInfo
  VersionHistoryItems : Option (List (Option VersionHistoryItem))
  EventBlobs : Option (List (Option DataBlob))
  NextEventID : Int
deriving DecidableEq, Repr

/-- The zero value `XDCCacheValue{}`: nil pointer, nil slices, zero integer. -/
def XDCCacheValue.zero : XDCCacheValue :=
  { BaseWorkflowInfo := none, VersionHistoryItems := none, EventBlobs := none, NextEventID := 0 }

/-- The elements a `for ... range` loop visits: none for a nil slice. -/
def rangeOf {α : Type} : Option (List α) → List α
  | none => []
  | some xs => xs

/-- Go errors that occur in this package, by class. -/
inductive GoError where
  | NotFound (msg : String)
  | InvalidArgument (msg : String)
  | Serialization (msg : String)
deriving DecidableEq, Repr

def NewXDCCacheKey (workflowKey : WorkflowKey) (minEventID : Int) (version : Int) : XDCCacheKey :=
  { WorkflowKey := workflowKey, MinEventID := minEventID, Version := version }

def NewXDCCacheValue (baseWorkflowInfo : Option BaseExecutionInfo)
    (versionHistoryItems : Option (List (Option VersionHistoryItem)))
    (eventBlobs : Option (List (Option DataBlob))) (nextEventID : Int) : XDCCacheValue :=
  { BaseWorkflowInfo := baseWorkflowInfo, VersionHistoryItems := versionHistoryItems,
    EventBlobs := eventBlobs, NextEventID := nextEventID }

/-! ## Size accounting -/

/-- Go `int` arithmetic on a 64-bit platform: results wrap into [-2^63, 2^63). -/
def wrapInt (x : Int) : Int :=
  (x + 9223372036854775808) % 18446744073709551616 - 9223372036854775808

/-- The generated `Size` methods of the three message types, as given functions. -/
structure ProtoSize where
  baseExecutionInfo : BaseExecutionInfo → Int
  versionHistoryItem : VersionHistoryItem → Int
  dataBlob : DataBlob → Int

/-- Modelled from the spec: the generated `Size` method called through a possibly nil
message pointer (the method bodies are not part of the sources at hand); a nil
message contributes 0. -/
def sizeOfPtr {α : Type} (size : α → Int) : Option α → Int
  | none => 0
  | some m => size m

/-- Cost of a cached value, from XDCCacheValue.CacheSize. -/
def XDCCacheValue.CacheSize (sz : ProtoSize) (v : XDCCacheValue) : Int :=
  let size : Int := 0
  let size := (rangeOf v.VersionHistoryItems).foldl
    (fun size item => wrapInt (size + sizeOfPtr sz.versionHistoryItem item)) size
  let size := (rangeOf v.EventBlobs).foldl
    (fun size blob => wrapInt (size + sizeOfPtr sz.dataBlob blob)) size
  wrapInt (sizeOfPtr sz.baseExecutionInfo v.BaseWorkflowInfo + size)

/-! ## Collaborators reached through interfaces -/

/-- The cache.Cache interface as used here: a method table over a store state.
A read may itself change the store (recency bookkeeping, dropping an expired entry),
so `Get` returns the store it leaves behind. -/
structure Cache (σ : Type) where
  Get : σ → XDCCacheKey → Option XDCCacheValue × σ
  Put : σ → XDCCacheKey → XDCCacheValue → σ

/-- Options handed to the store constructor (cache.Options). -/
structure Options where
  TTL : Int
  Pin : Bool
deriving DecidableEq, Repr

/-- Argument of tag.Error. -/
inductive Tag where
  | Error (err : GoError)
deriving DecidableEq, Repr

/-- The two messages this package logs. The arguments of the Sprintf call are kept
as data instead of being rendered to text; `none` is a nil event set. -/
inductive LogMsg where
  | ErrorDeserializingEvents
  | PuttingDuplicateKey (wfKey : WorkflowKey)
      (existingEventBlobs : Option (List (List HistoryEvent)))
      (newEventBlobs : Option (List (List HistoryEvent)))
deriving DecidableEq, Repr

inductive Level where
  | Error
deriving DecidableEq, Repr

structure LogEntry where
  level : Level
  msg : LogMsg
  tags : List Tag
deriving DecidableEq, Repr

/-- The logger, observed through the entries it has received, oldest first. -/
structure Logger where
  entries : List LogEntry
deriving DecidableEq, Repr

def Logger.Error (l : Logger) (msg : LogMsg) (tags : List Tag) : Logger :=
  { entries := l.entries ++ [{ level := Level.Error, msg := msg, tags := tags }] }

/-- The serializer: an arbitrary deserialization function, and the blobs it has been
called on so far, oldest first. -/
structure Serializer where
  deserialize : Option DataBlob → Except GoError (List HistoryEvent)
  calls : List (Option DataBlob)

def Serializer.DeserializeEvents (s : Serializer) (blob : Option DataBlob) :
    Except GoError (List HistoryEvent) × Serializer :=
  (s.deserialize blob, { s with calls := s.calls ++ [blob] })

/-! ## The cache -/

def xdcMinCacheSize : Int := 64 * 1024

structure XDCCacheImpl (σ : Type) where
  cache : σ
  logger : Logger
  serializer : Serializer

/-- Constructor, from NewEventsBlobCache; `New` is cache.New and `NewSerializer`
is serialization.NewSerializer. -/
def NewEventsBlobCache {σ : Type} (New : Int → Options → σ) (NewSerializer : Serializer)
    (maxBytes : Int) (ttl : Int) (logger : Logger) : XDCCacheImpl σ :=
  { cache := New (max xdcMinCacheSize maxBytes) { TTL := ttl, Pin := false },
    logger := logger,
    serializer := NewSerializer }

def XDCCacheImpl.Get {σ : Type} (c : Cache σ) (e : XDCCacheImpl σ) (key : XDCCacheKey) :
    (XDCCacheValue × Bool) × XDCCacheImpl σ :=
  let (value, st) := c.Get e.cache key
  let e := { e with cache := st }
  match value with
  | none => ((XDCCacheValue.zero, false), e)
  | some v => ((v, true), e)

/-- The loop of the closure `deserializeBlobs` in Put: `events` holds the batches
deserialized so far; the first failing blob is logged and ends the loop with nil. -/
def deserializeLoop {σ : Type} (e : XDCCacheImpl σ) :
    List (Option DataBlob) → List (List HistoryEvent) →
      Option (List (List HistoryEvent)) × XDCCacheImpl σ
  | [], events => (some events, e)
  | blob :: rest, events =>
    match e.serializer.DeserializeEvents blob with
    | (Except.error err, ser) =>
      (none, { e with
        serializer := ser,
        logger := e.logger.Error LogMsg.ErrorDeserializingEvents [Tag.Error err] })
    | (Except.ok evs, ser) =>
      deserializeLoop { e with serializer := ser } rest (events ++ [evs])

/-- The closure `deserializeBlobs` in Put. -/
def deserializeBlobs {σ : Type} (e : XDCCacheImpl σ) (blobs : Option (List (Option DataBlob))) :
    Option (List (List HistoryEvent)) × XDCCacheImpl σ :=
  deserializeLoop e (rangeOf blobs) []

def XDCCacheImpl.Put {σ : Type} (c : Cache σ) (e : XDCCacheImpl σ) (key : XDCCacheKey)
    (value : XDCCacheValue) : XDCCacheImpl σ :=
  let ((existingValue, found), e) := XDCCacheImpl.Get c e key
  let e :=
    if found && existingValue.NextEventID != value.NextEventID then
      let (existingEvents, e) := deserializeBlobs e existingValue.EventBlobs
      let (newEvents, e) := deserializeBlobs e value.EventBlobs
      { e with logger :=
          e.logger.Error (LogMsg.PuttingDuplicateKey key.WorkflowKey existingEvents newEvents) [] }
    else e
  { e with cache := c.Put e.cache key value }

/-! ## The store, while nothing is evicted -/

/-- The standing assumption "the underlying store does not evict": the store state
has a content `view`, reads return the content and leave it as it is, and a write
changes the content at the written key only. -/
structure NoEviction {σ : Type} (c : Cache σ)
    (view : σ → XDCCacheKey → Option XDCCacheValue) : Prop where
  get_val : ∀ s k, (c.Get s k).1 = view s k
  get_view : ∀ s k, view (c.Get s k).2 = view s
  put_view : ∀ s k v k', view (c.Put s k v) k' = if k' = k then some v else view s k'

/-- Modelled from the spec: the size/TTL-bounded store of common/cache (its code is
not part of the sources at hand), observed over a stretch in which no entry is
evicted and none expires: `New(maxBytes, options)` gives an empty store that
remembers its configuration, `Put` records the entry, `Get` returns the most
recently written value of a key or absent. -/
structure Store where
  maxSize : Int
  opts : Options
  entries : List (XDCCacheKey × XDCCacheValue)
deriving DecidableEq, Repr

def Store.New (maxSize : Int) (opts : Options) : Store :=
  { maxSize := maxSize, opts := opts, entries := [] }

def Store.find : List (XDCCacheKey × XDCCacheValue) → XDCCacheKey → Option XDCCacheValue
  | [], _ => none
  | (k', v) :: rest, k => if k = k' then some v else Store.find rest k

def Store.Get (s : Store) (key : XDCCacheKey) : Option XDCCacheValue × Store :=
  (Store.find s.entries key, s)

def Store.Put (s : Store) (key : XDCCacheKey) (value : XDCCacheValue) : Store :=
  { s with entries := (key, value) :: s.entries }

def Store.cache : Cache Store :=
  { Get := Store.Get, Put := Store.Put }

def Store.view (s : Store) (key : XDCCacheKey) : Option XDCCacheValue :=
  Store.find s.entries key

/-! ## Base-info copier -/

/-- The contents computed by CopyBaseWorkflowInfo: nil for nil, otherwise a record
built from the three fields of the source. -/
def CopyBaseWorkflowInfo (baseWorkflowInfo : Option BaseExecutionInfo) :
    Option BaseExecutionInfo :=
  match baseWorkflowInfo with
  | none => none
  | some x =>
    some { RunId := x.RunId,
           LowestCommonAncestorEventId := x.LowestCommonAncestorEventId,
           LowestCommonAncestorEventVersion := x.LowestCommonAncestorEventVersion }

/-- Memory holding BaseExecutionInfo records; an address is an index into `cells`. -/
structure Heap where
  cells : List BaseExecutionInfo
deriving DecidableEq, Repr

def Heap.deref (h : Heap) (a : Nat) : Option BaseExecutionInfo :=
  h.cells[a]?

/-- Allocation of a new record (the Go `&T{...}`): the address is one not in use. -/
def Heap.alloc (h : Heap) (r : BaseExecutionInfo) : Nat × Heap :=
  (h.cells.length, { cells := h.cells ++ [r] })

/-- Assignment through a pointer: the record at address `a` becomes `r`. -/
def Heap.store (h : Heap) (a : Nat) (r : BaseExecutionInfo) : Heap :=
  { cells := h.cells.set a r }

/-- CopyBaseWorkflowInfo on pointers: `none` as pointer is nil. The result is the
returned pointer and the memory after the call. An address outside the heap, which
no Go pointer can hold, gives `none` (no result). -/
def CopyBaseWorkflowInfoAt (h : Heap) (baseWorkflowInfo : Option Nat) :
    Option (Option Nat × Heap) :=
  match baseWorkflowInfo with
  | none => some (none, h)
  | some a =>
    match h.deref a with
    | none => none
    | some x =>
      let (p, h) := h.alloc
        { RunId := x.RunId,
          LowestCommonAncestorEventId := x.LowestCommonAncestorEventId,
          LowestCommonAncestorEventVersion := x.LowestCommonAncestorEventVersion }
      some (some p, h)

/-! ## Version-history locator -/

/-- One branch of the version-history tree: branch token bytes and checkpoints. -/
structure VersionHistory where
  BranchToken : List Nat
  Items : List VersionHistoryItem
deriving DecidableEq, Repr

structure VersionHistories where
  CurrentVersionHistoryIndex : Int
  Histories : List VersionHistory
deriving DecidableEq, Repr

/-- The part of persistencepb.WorkflowExecutionInfo that GetXDCCacheValue reads. -/
structure WorkflowExecutionInfo where
  BaseExecutionInfo : Option BaseExecutionInfo
  VersionHistories : VersionHistories
deriving DecidableEq, Repr

/-- Modelled from the spec: versionhistory.NewVersionHistoryItem, "construct-checkpoint-item"
(the versionhistory package is not part of the sources at hand). -/
def NewVersionHistoryItem (eventID : Int) (version : Int) : VersionHistoryItem :=
  { EventId := eventID, Version := version }

/-- Modelled from the spec: the scan behind the containment check. Each checkpoint
closes a segment of event ids, from just after the previous checkpoint (`prev`) up to
its own event id, all at its version. -/
def containsFrom (item : VersionHistoryItem) : Int → List VersionHistoryItem → Bool
  | _, [] => false
  | prev, cur :: rest =>
    (item.Version == cur.Version && decide (prev < item.EventId)
        && decide (item.EventId ≤ cur.EventId))
      || containsFrom item cur.EventId rest

/-- Modelled from the spec: the version-history containment check, "an item is
contained if the branch's monotonic version segments cover that exact eventID at
that version"; the first segment starts at event id 1. -/
def ContainsVersionHistoryItem (v : VersionHistory) (item : VersionHistoryItem) : Bool :=
  containsFrom item 0 v.Items

/-- Modelled from the spec: the search of "locate-branch-by-item" from branch index
`i` on, in input order. -/
def findFirstFrom (item : VersionHistoryItem) : Nat → List VersionHistory → Except GoError Int
  | _, [] => Except.error (GoError.NotFound
      "no version-history branch matches the requested event/version pair")
  | i, v :: rest =>
    if ContainsVersionHistoryItem v item then Except.ok (i : Int)
    else findFirstFrom item (i + 1) rest

/-- Modelled from the spec: versionhistory.FindFirstVersionHistoryIndexByVersionHistoryItem,
"locate-branch-by-item": the index of the first branch, in input order, that contains
the item; a NotFound-class error when no branch does. -/
def FindFirstVersionHistoryIndexByVersionHistoryItem (h : VersionHistories)
    (item : VersionHistoryItem) : Except GoError Int :=
  findFirstFrom item 0 h.Histories

/-- Modelled from the spec: versionhistory.GetVersionHistory, "fetch-branch-by-index":
the branch at the index, an error for an index that is not one of a branch. -/
def GetVersionHistory (h : VersionHistories) (index : Int) : Except GoError VersionHistory :=
  if index < 0 ∨ index ≥ (h.Histories.length : Int) then
    Except.error (GoError.InvalidArgument "invalid version history index.")
  else
    match h.Histories[index.toNat]? with
    | some v => Except.ok v
    | none => Except.error (GoError.InvalidArgument "invalid version history index.")

/-- Modelled from the spec: versionhistory.CopyVersionHistory, "deep-copy-branch": a new
branch whose token has the same bytes and whose checkpoints are new items with the
same event id and version, in the same order. -/
def CopyVersionHistory (v : VersionHistory) : VersionHistory :=
  { BranchToken := v.BranchToken.map id,
    Items := v.Items.map (fun item => NewVersionHistoryItem item.EventId item.Version) }

/-- The locator, from GetXDCCacheValue. The three results are the checkpoint items,
the branch token and the base info; on error the Go function returns nil for each. -/
def GetXDCCacheValue (executionInfo : WorkflowExecutionInfo) (eventID : Int) (version : Int) :
    Except GoError (List VersionHistoryItem × List Nat × Option BaseExecutionInfo) :=
  let baseWorkflowInfo := CopyBaseWorkflowInfo executionInfo.BaseExecutionInfo
  let versionHistories := executionInfo.VersionHistories
  match FindFirstVersionHistoryIndexByVersionHistoryItem versionHistories
      (NewVersionHistoryItem eventID version) with
  | Except.error err => Except.error err
  | Except.ok versionHistoryIndex =>
    match GetVersionHistory versionHistories versionHistoryIndex with
    | Except.error err => Except.error err
    | Except.ok versionHistoryBranch =>
      Except.ok ((CopyVersionHistory versionHistoryBranch).Items,
        versionHistoryBranch.BranchToken, baseWorkflowInfo)

/-! ## What one side of the diagnostic amounts to

The duplicate-key diagnostic deserializes the blobs of the stored value and those
of the incoming value. The next three functions say, in terms of the
deserialization function alone, what one such pass yields. -/

/-- All batches of a side in order, or the error of the first blob that fails. -/
def deserializeAll (f : Option DataBlob → Except GoError (List HistoryEvent)) :
    List (Option DataBlob) → Except GoError (List (List HistoryEvent))
  | [] => Except.ok []
  | blob :: rest =>
    match f blob with
    | Except.error err => Except.error err
    | Except.ok evs =>
      match deserializeAll f rest with
      | Except.error err => Except.error err
      | Except.ok evss => Except.ok (evs :: evss)

/-- The event set a side contributes to the diagnostic: nil when a blob fails. -/
def sideEvents (f : Option DataBlob → Except GoError (List HistoryEvent))
    (blobs : Option (List (Option DataBlob))) : Option (List (List HistoryEvent)) :=
  match deserializeAll f (rangeOf blobs) with
  | Except.ok evss => some evss
  | Except.error _ => none

/-- The log entries a side emits on its own: one entry for its first failing blob. -/
def sideErrors (f : Option DataBlob → Except GoError (List HistoryEvent))
    (blobs : Option (List (Option DataBlob))) : List LogEntry :=
  match deserializeAll f (rangeOf blobs) with
  | Except.ok _ => []
  | Except.error err =>
    [{ level := Level.Error, msg := LogMsg.ErrorDeserializingEvents, tags := [Tag.Error err] }]

/-- The blobs of a side that reach the serializer: all up to and including the first
that fails. -/
def attempted (f : Option DataBlob → Except GoError (List HistoryEvent)) :
    List (Option DataBlob) → List (Option DataBlob)
  | [] => []
  | blob :: rest =>
    match f blob with
    | Except.error _ => [blob]
    | Except.ok _ => blob :: attempted f rest

/-- The duplicate-key entry. -/
def duplicateKeyEntry (key : XDCCacheKey)
    (existingEvents newEvents : Option (List (List HistoryEvent))) : LogEntry :=
  { level := Level.Error,
    msg := LogMsg.PuttingDuplicateKey key.WorkflowKey existingEvents newEvents,
    tags := [] }

/-- Recognizes the duplicate-key diagnostic among log entries. -/
def LogEntry.isDuplicateKey (x : LogEntry) : Bool :=
  match x.msg with
  | LogMsg.PuttingDuplicateKey _ _ _ => true
  | LogMsg.ErrorDeserializingEvents => false

/-- A run of writes, oldest first. -/
def putAll {σ : Type} (c : Cache σ) (e : XDCCacheImpl σ) :
    List (XDCCacheKey × XDCCacheValue) → XDCCacheImpl σ
  | [] => e
  | (k, v) :: rest => putAll c (XDCCacheImpl.Put c e k v) rest

/-- The sum of the component sizes of a value, over the integers: the size of the base
info (0 for nil), of every checkpoint item and of every event blob. -/
def componentSizes (sz : ProtoSize) (v : XDCCacheValue) : Int :=
  sizeOfPtr sz.baseExecutionInfo v.BaseWorkflowInfo
    + ((rangeOf v.VersionHistoryItems).map (sizeOfPtr sz.versionHistoryItem)).sum
    + ((rangeOf v.EventBlobs).map (sizeOfPtr sz.dataBlob)).sum

/-! ## Concrete data used to exercise the statements -/

def wfKey : WorkflowKey := { NamespaceID := "ns", WorkflowID := "wf", RunID := "run" }

def key52 : XDCCacheKey := NewXDCCacheKey wfKey 5 2

def blobA : DataBlob := { EncodingType := 1, Data := [1, 2, 3] }

def blobBad : DataBlob := { EncodingType := 0, Data := [] }

def value12 : XDCCacheValue :=
  NewXDCCacheValue none (some [some { EventId := 5, Version := 2 }]) (some [some blobA]) 12

def value15 : XDCCacheValue :=
  NewXDCCacheValue none (some [some { EventId := 5, Version := 2 }]) (some [some blobA]) 15

def value15Bad : XDCCacheValue :=
  NewXDCCacheValue none (some [some { EventId := 5, Version := 2 }])
    (some [some blobA, some blobBad, some blobA]) 15

/-- A serializer that rejects a blob with encoding tag 0 and reads every other blob
(also the nil blob) as one event per payload byte. -/
def sampleSerializer : Serializer :=
  { deserialize := fun blob =>
      match blob with
      | none => Except.ok []
      | some b =>
        if b.EncodingType = 0 then Except.error (GoError.Serialization "unknown encoding")
        else Except.ok (b.Data.map (fun d => { EventId := (d : Int), Version := 2 })),
    calls := [] }

def sampleCache : XDCCacheImpl Store :=
  NewEventsBlobCache Store.New sampleSerializer 0 3600 { entries := [] }

def branchA : VersionHistory :=
  { BranchToken := [65], Items := [{ EventId := 10, Version := 1 }, { EventId := 20, Version := 2 }] }

def branchB : VersionHistory :=
  { BranchToken := [66], Items := [{ EventId := 5, Version := 1 }, { EventId := 30, Version := 2 }] }

def branchC : VersionHistory :=
  { BranchToken := [67], Items := [{ EventId := 12, Version := 1 }] }

def sampleBase : BaseExecutionInfo :=
  { RunId := "base-run", LowestCommonAncestorEventId := 7, LowestCommonAncestorEventVersion := 1 }

/-- Two branches: A contains (10, 1), B does not. -/
def recordAB : WorkflowExecutionInfo :=
  { BaseExecutionInfo := none,
    VersionHistories := { CurrentVersionHistoryIndex := 0, Histories := [branchA, branchB] } }

/-- Three branches, of which the second and the third contain (10, 1). -/
def recordBAC : WorkflowExecutionInfo :=
  { BaseExecutionInfo := some sampleBase,
    VersionHistories :=
      { CurrentVersionHistoryIndex := 0, Histories := [branchB, branchA, branchC] } }

def sampleHeap : Heap :=
  { cells := [{ RunId := "other", LowestCommonAncestorEventId := 1,
                LowestCommonAncestorEventVersion := 2 }, sampleBase] }

def sampleSize : ProtoSize :=
  { baseExecutionInfo := fun x => (x.RunId.length : Int) + 4,
    versionHistoryItem := fun _ => 4,
    dataBlob := fun b => (b.Data.length : Int) + 2 }

/-- Whether some blob of a side fails to deserialize. -/
def sideFails (f : Option DataBlob → Except GoError (List HistoryEvent))
    (blobs : Option (List (Option DataBlob))) : Bool :=
  (rangeOf blobs).any (fun blob =>
    match f blob with
    | Except.error _ => true
    | Except.ok _ => false)

def key53 : XDCCacheKey := NewXDCCacheKey wfKey 5 3

def wfKeyOtherRun : WorkflowKey := { NamespaceID := "ns", WorkflowID := "wf", RunID := "run2" }

/-! ## Lemmas on the store and on Get -/

theorem Store.cache_noEviction : NoEviction Store.cache Store.view := by
  refine ⟨fun s k => rfl, fun s k => rfl, fun s k v k' => ?_⟩
  simp [Store.cache, Store.Put, Store.view, Store.find]

theorem Get_fst {σ : Type} (c : Cache σ) (e : XDCCacheImpl σ) (k : XDCCacheKey) :
    (XDCCacheImpl.Get c e k).1 =
      match (c.Get e.cache k).1 with
      | none => (XDCCacheValue.zero, false)
      | some v => (v, true) := by
  unfold XDCCacheImpl.Get
  cases h : (c.Get e.cache k).1 <;> simp [h]

theorem Get_snd {σ : Type} (c : Cache σ) (e : XDCCacheImpl σ) (k : XDCCacheKey) :
    (XDCCacheImpl.Get c e k).2 = { e with cache := (c.Get e.cache k).2 } := by
  unfold XDCCacheImpl.Get
  cases h : (c.Get e.cache k).1 <;> simp [h]

/-! ## Lemmas on the diagnostic -/

theorem deserializeLoop_eq {σ : Type} (blobs : List (Option DataBlob)) :
    ∀ (e : XDCCacheImpl σ) (events : List (List HistoryEvent)),
      deserializeLoop e blobs events =
        ((sideEvents e.serializer.deserialize (some blobs)).map (fun evss => events ++ evss),
         { cache := e.cache,
           logger :=
             { entries := e.logger.entries ++ sideErrors e.serializer.deserialize (some blobs) },
           serializer :=
             { deserialize := e.serializer.deserialize,
               calls := e.serializer.calls ++ attempted e.serializer.deserialize blobs } }) := by
  induction blobs with
  | nil =>
    intro e events
    simp [deserializeLoop, sideEvents, sideErrors, attempted, deserializeAll, rangeOf]
  | cons blob rest ih =>
    intro e events
    unfold deserializeLoop
    cases hf : e.serializer.deserialize blob with
    | error err =>
      simp [Serializer.DeserializeEvents, hf, sideEvents, sideErrors, attempted, deserializeAll,
        rangeOf, Logger.Error]
    | ok evs =>
      simp only [Serializer.DeserializeEvents, hf]
      rw [ih]
      simp only [sideEvents, sideErrors, attempted, deserializeAll, rangeOf, hf]
      cases hr : deserializeAll e.serializer.deserialize rest <;> simp [hr]

theorem sideEvents_rangeOf (f : Option DataBlob → Except GoError (List HistoryEvent))
    (blobs : Option (List (Option DataBlob))) :
    sideEvents f (some (rangeOf blobs)) = sideEvents f blobs := by
  cases blobs <;> rfl

theorem sideErrors_rangeOf (f : Option DataBlob → Except GoError (List HistoryEvent))
    (blobs : Option (List (Option DataBlob))) :
    sideErrors f (some (rangeOf blobs)) = sideErrors f blobs := by
  cases blobs <;> rfl

theorem deserializeBlobs_eq {σ : Type} (e : XDCCacheImpl σ)
    (blobs : Option (List (Option DataBlob))) :
    deserializeBlobs e blobs =
      (sideEvents e.serializer.deserialize blobs,
       { cache := e.cache,
         logger := { entries := e.logger.entries ++ sideErrors e.serializer.deserialize blobs },
         serializer :=
           { deserialize := e.serializer.deserialize,
             calls := e.serializer.calls
               ++ attempted e.serializer.deserialize (rangeOf blobs) } }) := by
  unfold deserializeBlobs
  rw [deserializeLoop_eq, sideEvents_rangeOf, sideErrors_rangeOf]
  cases sideEvents e.serializer.deserialize blobs <;> simp

/-- The write to the store happens on every path of Put, with the key and value given. -/
theorem Put_cache {σ : Type} (c : Cache σ) (e : XDCCacheImpl σ) (k : XDCCacheKey)
    (v : XDCCacheValue) :
    (XDCCacheImpl.Put c e k v).cache = c.Put (c.Get e.cache k).2 k v := by
  unfold XDCCacheImpl.Put
  simp only [Get_fst, Get_snd]
  cases h : (c.Get e.cache k).1 with
  | none => simp
  | some ex =>
    by_cases hne : ex.NextEventID = v.NextEventID
    · simp [hne]
    · simp [hne, deserializeBlobs_eq]

/-- The serializer function of a cache is the same before and after Put. -/
theorem Put_deserialize {σ : Type} (c : Cache σ) (e : XDCCacheImpl σ) (k : XDCCacheKey)
    (v : XDCCacheValue) :
    (XDCCacheImpl.Put c e k v).serializer.deserialize = e.serializer.deserialize := by
  unfold XDCCacheImpl.Put
  simp only [Get_fst, Get_snd]
  cases h : (c.Get e.cache k).1 with
  | none => simp
  | some ex =>
    by_cases hne : ex.NextEventID = v.NextEventID
    · simp [hne]
    · simp [hne, deserializeBlobs_eq]

/-- Put on a key the store does not hold logs nothing. -/
theorem Put_logger_absent {σ : Type} (c : Cache σ) (e : XDCCacheImpl σ) (k : XDCCacheKey)
    (v : XDCCacheValue) (h : (c.Get e.cache k).1 = none) :
    (XDCCacheImpl.Put c e k v).logger = e.logger := by
  unfold XDCCacheImpl.Put
  simp [Get_fst, Get_snd, h]

/-- Put over a stored value with the same NextEventID logs nothing. -/
theorem Put_logger_same {σ : Type} (c : Cache σ) (e : XDCCacheImpl σ) (k : XDCCacheKey)
    (v ex : XDCCacheValue) (h : (c.Get e.cache k).1 = some ex)
    (hsame : ex.NextEventID = v.NextEventID) :
    (XDCCacheImpl.Put c e k v).logger = e.logger := by
  unfold XDCCacheImpl.Put
  simp [Get_fst, Get_snd, h, hsame]

/-- Put over a stored value with another NextEventID logs the errors of the existing
side, then those of the incoming side, then the duplicate-key entry. -/
theorem Put_logger_mismatch {σ : Type} (c : Cache σ) (e : XDCCacheImpl σ) (k : XDCCacheKey)
    (v ex : XDCCacheValue) (h : (c.Get e.cache k).1 = some ex)
    (hne : ex.NextEventID ≠ v.NextEventID) :
    (XDCCacheImpl.Put c e k v).logger.entries =
      e.logger.entries
        ++ (sideErrors e.serializer.deserialize ex.EventBlobs
        ++ (sideErrors e.serializer.deserialize v.EventBlobs
        ++ [duplicateKeyEntry k (sideEvents e.serializer.deserialize ex.EventBlobs)
              (sideEvents e.serializer.deserialize v.EventBlobs)])) := by
  unfold XDCCacheImpl.Put
  simp [Get_fst, Get_snd, h, hne, deserializeBlobs_eq, Logger.Error, duplicateKeyEntry]

/-- Under the no-eviction assumption the content of the store after Put is the old
content with the key bound to the incoming value. -/
theorem Put_view {σ : Type} (c : Cache σ) (view : σ → XDCCacheKey → Option XDCCacheValue)
    (hc : NoEviction c view) (e : XDCCacheImpl σ) (k : XDCCacheKey) (v : XDCCacheValue)
    (k' : XDCCacheKey) :
    view (XDCCacheImpl.Put c e k v).cache k' = if k' = k then some v else view e.cache k' := by
  rw [Put_cache, hc.put_view, hc.get_view]

theorem sideErrors_not_duplicate (f : Option DataBlob → Except GoError (List HistoryEvent))
    (blobs : Option (List (Option DataBlob))) :
    (sideErrors f blobs).filter LogEntry.isDuplicateKey = [] := by
  unfold sideErrors
  cases deserializeAll f (rangeOf blobs) <;> simp [LogEntry.isDuplicateKey]

theorem sideErrors_length_le (f : Option DataBlob → Except GoError (List HistoryEvent))
    (blobs : Option (List (Option DataBlob))) :
    (sideErrors f blobs).length ≤ 1 := by
  unfold sideErrors
  cases deserializeAll f (rangeOf blobs) <;> simp

theorem deserializeAll_ok_iff (f : Option DataBlob → Except GoError (List HistoryEvent)) :
    ∀ (blobs : List (Option DataBlob)) (evss : List (List HistoryEvent)),
      deserializeAll f blobs = Except.ok evss ↔ blobs.map f = evss.map Except.ok := by
  intro blobs
  induction blobs with
  | nil =>
    intro evss
    cases evss <;> simp [deserializeAll]
  | cons blob rest ih =>
    intro evss
    unfold deserializeAll
    cases hf : f blob with
    | error err =>
      cases evss <;> simp [hf]
    | ok evs =>
      cases hr : deserializeAll f rest with
      | error err =>
        cases evss with
        | nil => simp
        | cons x xs =>
          have h := ih xs
          rw [hr] at h
          simp only [List.map_cons, List.cons.injEq, hf, Except.ok.injEq, reduceCtorEq,
            false_iff, not_and]
          intro _ hxs
          exact absurd (h.mpr hxs) (by simp)
      | ok evss' =>
        cases evss with
        | nil => simp
        | cons x xs =>
          have h := ih xs
          rw [hr] at h
          simp only [List.map_cons, List.cons.injEq, hf, Except.ok.injEq]
          constructor
          · rintro ⟨rfl, rfl⟩
            exact ⟨rfl, h.mp rfl⟩
          · rintro ⟨rfl, hxs⟩
            exact ⟨rfl, Except.ok.inj (h.mpr hxs)⟩

theorem deserializeAll_error_iff (f : Option DataBlob → Except GoError (List HistoryEvent)) :
    ∀ (blobs : List (Option DataBlob)) (err : GoError),
      deserializeAll f blobs = Except.error err ↔
        ∃ pre blob post, blobs = pre ++ blob :: post
          ∧ (∀ b ∈ pre, ∃ evs, f b = Except.ok evs) ∧ f blob = Except.error err := by
  intro blobs
  induction blobs with
  | nil =>
    intro err
    simp [deserializeAll]
  | cons blob rest ih =>
    intro err
    unfold deserializeAll
    cases hf : f blob with
    | error err0 =>
      simp only [Except.error.injEq]
      constructor
      · rintro rfl
        exact ⟨[], blob, rest, rfl, by simp, hf⟩
      · rintro ⟨pre, b, post, hsplit, hpre, hb⟩
        cases pre with
        | nil =>
          simp only [List.nil_append, List.cons.injEq] at hsplit
          rw [← hsplit.1, hf] at hb
          exact Except.error.inj hb
        | cons p ps =>
          simp only [List.cons_append, List.cons.injEq] at hsplit
          obtain ⟨evs, hp⟩ := hpre p (by simp)
          rw [← hsplit.1, hf] at hp
          cases hp
    | ok evs =>
      have h := ih err
      cases hr : deserializeAll f rest with
      | error err1 =>
        rw [hr] at h
        simp only [Except.error.injEq]
        constructor
        · rintro rfl
          obtain ⟨pre, b, post, hsplit, hpre, hb⟩ := h.mp rfl
          refine ⟨blob :: pre, b, post, by simp [hsplit], ?_, hb⟩
          intro x hx
          rcases List.mem_cons.mp hx with rfl | hx
          · exact ⟨evs, hf⟩
          · exact hpre x hx
        · rintro ⟨pre, b, post, hsplit, hpre, hb⟩
          cases pre with
          | nil =>
            simp only [List.nil_append, List.cons.injEq] at hsplit
            rw [← hsplit.1, hf] at hb
            cases hb
          | cons p ps =>
            simp only [List.cons_append, List.cons.injEq] at hsplit
            have := h.mpr ⟨ps, b, post, hsplit.2, fun x hx => hpre x (by simp [hx]), hb⟩
            exact Except.error.inj this
      | ok evss =>
        rw [hr] at h
        simp only [reduceCtorEq, false_iff]
        rintro ⟨pre, b, post, hsplit, hpre, hb⟩
        cases pre with
        | nil =>
          simp only [List.nil_append, List.cons.injEq] at hsplit
          rw [← hsplit.1, hf] at hb
          cases hb
        | cons p ps =>
          simp only [List.cons_append, List.cons.injEq] at hsplit
          have := h.mpr ⟨ps, b, post, hsplit.2, fun x hx => hpre x (by simp [hx]), hb⟩
          cases this

/-- A side on which every blob deserializes contributes all batches and no entry. -/
theorem side_all_ok (f : Option DataBlob → Except GoError (List HistoryEvent))
    (blobs : Option (List (Option DataBlob))) (evss : List (List HistoryEvent))
    (h : (rangeOf blobs).map f = evss.map Except.ok) :
    sideEvents f blobs = some evss ∧ sideErrors f blobs = [] := by
  have := (deserializeAll_ok_iff f (rangeOf blobs) evss).mpr h
  simp [sideEvents, sideErrors, this]

/-- A side with a failing blob contributes nil and the entry of its first failure. -/
theorem side_first_failure (f : Option DataBlob → Except GoError (List HistoryEvent))
    (blobs : Option (List (Option DataBlob))) (pre post : List (Option DataBlob))
    (blob : Option DataBlob) (err : GoError)
    (hsplit : rangeOf blobs = pre ++ blob :: post)
    (hpre : ∀ b ∈ pre, ∃ evs, f b = Except.ok evs) (hblob : f blob = Except.error err) :
    sideEvents f blobs = none ∧
      sideErrors f blobs =
        [{ level := Level.Error, msg := LogMsg.ErrorDeserializingEvents,
           tags := [Tag.Error err] }] := by
  have := (deserializeAll_error_iff f (rangeOf blobs) err).mpr ⟨pre, blob, post, hsplit, hpre, hblob⟩
  simp [sideEvents, sideErrors, this]

theorem putAll_view {σ : Type} (c : Cache σ) (view : σ → XDCCacheKey → Option XDCCacheValue)
    (hc : NoEviction c view) (k : XDCCacheKey) :
    ∀ (ps : List (XDCCacheKey × XDCCacheValue)) (e : XDCCacheImpl σ),
      (∀ p ∈ ps, p.1 ≠ k) → view (putAll c e ps).cache k = view e.cache k := by
  intro ps
  induction ps with
  | nil => intro e _; rfl
  | cons p rest ih =>
    intro e hps
    obtain ⟨k0, v0⟩ := p
    have hk : k0 ≠ k := hps (k0, v0) (by simp)
    unfold putAll
    rw [ih _ (fun q hq => hps q (by simp [hq])), Put_view c view hc]
    simp [Ne.symm hk]

/-- Under the no-eviction assumption Get after Put of the same key finds the value. -/
theorem Get_after_Put {σ : Type} (c : Cache σ) (view : σ → XDCCacheKey → Option XDCCacheValue)
    (hc : NoEviction c view) (e : XDCCacheImpl σ) (k : XDCCacheKey) (v : XDCCacheValue) :
    (XDCCacheImpl.Get c (XDCCacheImpl.Put c e k v) k).1 = (v, true) := by
  rw [Get_fst, hc.get_val, Put_view c view hc]
  simp

theorem sideErrors_msg (f : Option DataBlob → Except GoError (List HistoryEvent))
    (blobs : Option (List (Option DataBlob))) (x : LogEntry) (hx : x ∈ sideErrors f blobs) :
    x.msg = LogMsg.ErrorDeserializingEvents := by
  unfold sideErrors at hx
  cases hd : deserializeAll f (rangeOf blobs) with
  | error err =>
    rw [hd] at hx
    simp only [List.mem_singleton] at hx
    rw [hx]
  | ok evss =>
    rw [hd] at hx
    simp at hx

theorem sideErrors_nil_of_all_ok (f : Option DataBlob → Except GoError (List HistoryEvent))
    (blobs : Option (List (Option DataBlob)))
    (hb : ∀ b ∈ rangeOf blobs, ∃ evs, f b = Except.ok evs) :
    sideErrors f blobs = [] := by
  unfold sideErrors
  cases hd : deserializeAll f (rangeOf blobs) with
  | ok evss => rfl
  | error err =>
    obtain ⟨pre, blob, post, hsplit, _, hblob⟩ :=
      (deserializeAll_error_iff f (rangeOf blobs) err).mp hd
    obtain ⟨evs, hevs⟩ := hb blob (by simp [hsplit])
    rw [hevs] at hblob
    cases hblob

/-! ## Put and Get -/

/-- C1: while the store does not evict, for every cache state (in particular one
that already holds an entry for the key), every key, every value and every
serializer, Put followed by Get of the same key returns the value with found = true,
all four fields being those of the value written. -/
theorem put_then_get_returns_value {σ : Type} (c : Cache σ)
    (view : σ → XDCCacheKey → Option XDCCacheValue) (hc : NoEviction c view)
    (e : XDCCacheImpl σ) (k : XDCCacheKey) (v : XDCCacheValue) :
    (XDCCacheImpl.Get c (XDCCacheImpl.Put c e k v) k).1 = (v, true)
      ∧ (XDCCacheImpl.Get c (XDCCacheImpl.Put c e k v) k).1.1.BaseWorkflowInfo
          = v.BaseWorkflowInfo
      ∧ (XDCCacheImpl.Get c (XDCCacheImpl.Put c e k v) k).1.1.VersionHistoryItems
          = v.VersionHistoryItems
      ∧ (XDCCacheImpl.Get c (XDCCacheImpl.Put c e k v) k).1.1.EventBlobs = v.EventBlobs
      ∧ (XDCCacheImpl.Get c (XDCCacheImpl.Put c e k v) k).1.1.NextEventID = v.NextEventID := by
  have h := Get_after_Put c view hc e k v
  simp [h]

theorem put_then_get_returns_value_witness :
    NoEviction Store.cache Store.view
      ∧ ((XDCCacheImpl.Get Store.cache
            (XDCCacheImpl.Put Store.cache
              (XDCCacheImpl.Put Store.cache sampleCache key52 value12) key52 value15Bad)
            key52).1 = (value15Bad, true)
        ∧ (XDCCacheImpl.Get Store.cache
            (XDCCacheImpl.Put Store.cache
              (XDCCacheImpl.Put Store.cache sampleCache key52 value12) key52 value15Bad)
            key52).1.1.BaseWorkflowInfo = value15Bad.BaseWorkflowInfo
        ∧ (XDCCacheImpl.Get Store.cache
            (XDCCacheImpl.Put Store.cache
              (XDCCacheImpl.Put Store.cache sampleCache key52 value12) key52 value15Bad)
            key52).1.1.VersionHistoryItems = value15Bad.VersionHistoryItems
        ∧ (XDCCacheImpl.Get Store.cache
            (XDCCacheImpl.Put Store.cache
              (XDCCacheImpl.Put Store.cache sampleCache key52 value12) key52 value15Bad)
            key52).1.1.EventBlobs = value15Bad.EventBlobs
        ∧ (XDCCacheImpl.Get Store.cache
            (XDCCacheImpl.Put Store.cache
              (XDCCacheImpl.Put Store.cache sampleCache key52 value12) key52 value15Bad)
            key52).1.1.NextEventID = value15Bad.NextEventID) :=
  ⟨Store.cache_noEviction,
    put_then_get_returns_value Store.cache Store.view Store.cache_noEviction
      (XDCCacheImpl.Put Store.cache sampleCache key52 value12) key52 value15Bad⟩

/-- C2: while the store does not evict, Put of v1 and then Put of v2 under the same
key, with different NextEventID, makes the second Put append to the log exactly one
duplicate-key diagnostic, which is the last entry appended, names the workflow key
and carries the event sets of v1 and of v2; any other entry appended (at most two)
is a deserialization error, and there is none when every blob of both values
deserializes. A Get of the key afterwards returns v2 with found = true. -/
theorem second_put_mismatch_one_diagnostic {σ : Type} (c : Cache σ)
    (view : σ → XDCCacheKey → Option XDCCacheValue) (hc : NoEviction c view)
    (e : XDCCacheImpl σ) (k : XDCCacheKey) (v1 v2 : XDCCacheValue)
    (hne : v1.NextEventID ≠ v2.NextEventID) :
    ∃ errs : List LogEntry,
      (XDCCacheImpl.Put c (XDCCacheImpl.Put c e k v1) k v2).logger.entries =
          (XDCCacheImpl.Put c e k v1).logger.entries ++ (errs ++
            [duplicateKeyEntry k (sideEvents e.serializer.deserialize v1.EventBlobs)
              (sideEvents e.serializer.deserialize v2.EventBlobs)])
        ∧ (errs ++ [duplicateKeyEntry k (sideEvents e.serializer.deserialize v1.EventBlobs)
              (sideEvents e.serializer.deserialize v2.EventBlobs)]).filter
            LogEntry.isDuplicateKey =
          [duplicateKeyEntry k (sideEvents e.serializer.deserialize v1.EventBlobs)
              (sideEvents e.serializer.deserialize v2.EventBlobs)]
        ∧ (∀ x ∈ errs, x.msg = LogMsg.ErrorDeserializingEvents)
        ∧ errs.length ≤ 2
        ∧ ((∀ b ∈ rangeOf v1.EventBlobs ++ rangeOf v2.EventBlobs,
              ∃ evs, e.serializer.deserialize b = Except.ok evs) → errs = [])
        ∧ (XDCCacheImpl.Get c (XDCCacheImpl.Put c (XDCCacheImpl.Put c e k v1) k v2) k).1
            = (v2, true) := by
  have hget : (c.Get (XDCCacheImpl.Put c e k v1).cache k).1 = some v1 := by
    rw [hc.get_val, Put_view c view hc]
    simp
  have hlog := Put_logger_mismatch c (XDCCacheImpl.Put c e k v1) k v2 v1 hget hne
  rw [Put_deserialize] at hlog
  refine ⟨sideErrors e.serializer.deserialize v1.EventBlobs
      ++ sideErrors e.serializer.deserialize v2.EventBlobs, ?_, ?_, ?_, ?_, ?_, ?_⟩
  · rw [hlog]
    simp
  · simp [List.filter_append, sideErrors_not_duplicate, LogEntry.isDuplicateKey,
      duplicateKeyEntry]
  · intro x hx
    rcases List.mem_append.mp hx with h1 | h2
    · exact sideErrors_msg _ _ x h1
    · exact sideErrors_msg _ _ x h2
  · have h1 := sideErrors_length_le e.serializer.deserialize v1.EventBlobs
    have h2 := sideErrors_length_le e.serializer.deserialize v2.EventBlobs
    simp only [List.length_append]
    omega
  · intro hall
    rw [sideErrors_nil_of_all_ok _ v1.EventBlobs (fun b hb => hall b (by simp [hb])),
      sideErrors_nil_of_all_ok _ v2.EventBlobs (fun b hb => hall b (by simp [hb]))]
    rfl
  · exact Get_after_Put c view hc (XDCCacheImpl.Put c e k v1) k v2

theorem second_put_mismatch_one_diagnostic_witness :
    NoEviction Store.cache Store.view
      ∧ value12.NextEventID ≠ value15.NextEventID
      ∧ ∃ errs : List LogEntry,
        (XDCCacheImpl.Put Store.cache
            (XDCCacheImpl.Put Store.cache sampleCache key52 value12) key52 value15).logger.entries =
          (XDCCacheImpl.Put Store.cache sampleCache key52 value12).logger.entries ++ (errs ++
            [duplicateKeyEntry key52
              (sideEvents sampleCache.serializer.deserialize value12.EventBlobs)
              (sideEvents sampleCache.serializer.deserialize value15.EventBlobs)])
        ∧ (errs ++ [duplicateKeyEntry key52
              (sideEvents sampleCache.serializer.deserialize value12.EventBlobs)
              (sideEvents sampleCache.serializer.deserialize value15.EventBlobs)]).filter
            LogEntry.isDuplicateKey =
          [duplicateKeyEntry key52
              (sideEvents sampleCache.serializer.deserialize value12.EventBlobs)
              (sideEvents sampleCache.serializer.deserialize value15.EventBlobs)]
        ∧ (∀ x ∈ errs, x.msg = LogMsg.ErrorDeserializingEvents)
        ∧ errs.length ≤ 2
        ∧ ((∀ b ∈ rangeOf value12.EventBlobs ++ rangeOf value15.EventBlobs,
              ∃ evs, sampleCache.serializer.deserialize b = Except.ok evs) → errs = [])
        ∧ (XDCCacheImpl.Get Store.cache
            (XDCCacheImpl.Put Store.cache
              (XDCCacheImpl.Put Store.cache sampleCache key52 value12) key52 value15) key52).1
            = (value15, true) :=
  ⟨Store.cache_noEviction, by decide,
    second_put_mismatch_one_diagnostic Store.cache Store.view Store.cache_noEviction
      sampleCache key52 value12 value15 (by decide)⟩

/-- C5: Get returns the zero value (nil base info, nil items, nil blobs,
NextEventID 0) with found = false when the store has no entry for the key, and the
stored value with found = true when it has one, so found = true exactly when the
store holds an entry. A key that was never written is such an absent key: starting
from a store without the key (a new store in particular) and while nothing is
evicted, after any run of Puts under other keys Get still returns zero and false. -/
theorem get_absent_zero_present_value {σ : Type} (c : Cache σ) (e : XDCCacheImpl σ)
    (k : XDCCacheKey) :
    ((c.Get e.cache k).1 = none → (XDCCacheImpl.Get c e k).1 = (XDCCacheValue.zero, false))
      ∧ (XDCCacheValue.zero.BaseWorkflowInfo = none
          ∧ XDCCacheValue.zero.VersionHistoryItems = none
          ∧ XDCCacheValue.zero.EventBlobs = none
          ∧ XDCCacheValue.zero.NextEventID = 0)
      ∧ (∀ v, (c.Get e.cache k).1 = some v → (XDCCacheImpl.Get c e k).1 = (v, true))
      ∧ ((XDCCacheImpl.Get c e k).1.2 = true ↔ ∃ v, (c.Get e.cache k).1 = some v)
      ∧ (∀ view, NoEviction c view → view e.cache k = none →
          ∀ ps : List (XDCCacheKey × XDCCacheValue), (∀ p ∈ ps, p.1 ≠ k) →
            (XDCCacheImpl.Get c (putAll c e ps) k).1 = (XDCCacheValue.zero, false)) := by
  refine ⟨?_, ⟨rfl, rfl, rfl, rfl⟩, ?_, ?_, ?_⟩
  · intro h
    rw [Get_fst, h]
  · intro v h
    rw [Get_fst, h]
  · rw [Get_fst]
    cases h : (c.Get e.cache k).1 <;> simp
  · intro view hc hk ps hps
    rw [Get_fst, hc.get_val, putAll_view c view hc k ps e hps, hk]

theorem get_absent_zero_present_value_witness :
    (XDCCacheImpl.Get Store.cache
        (putAll Store.cache sampleCache [(key52, value12), (key52, value15)])
        (NewXDCCacheKey wfKey 5 3)).1 = (XDCCacheValue.zero, false)
      ∧ (XDCCacheImpl.Get Store.cache
          (putAll Store.cache sampleCache [(key52, value12), (key52, value15)]) key52).1
        = (value15, true) :=
  ⟨(get_absent_zero_present_value Store.cache sampleCache (NewXDCCacheKey wfKey 5 3)).2.2.2.2
      Store.view Store.cache_noEviction rfl [(key52, value12), (key52, value15)] (by decide),
    (get_absent_zero_present_value Store.cache
      (putAll Store.cache sampleCache [(key52, value12), (key52, value15)]) key52).2.2.1
      value15 (by decide)⟩

/-- C6: while the store does not evict, Put of v1 and then Put of v2 under the same
key with equal NextEventID (whatever their base info, items and blobs) leaves the
log as it was after the first Put: the second Put appends no entry. -/
theorem second_put_same_next_logs_nothing {σ : Type} (c : Cache σ)
    (view : σ → XDCCacheKey → Option XDCCacheValue) (hc : NoEviction c view)
    (e : XDCCacheImpl σ) (k : XDCCacheKey) (v1 v2 : XDCCacheValue)
    (hsame : v1.NextEventID = v2.NextEventID) :
    (XDCCacheImpl.Put c (XDCCacheImpl.Put c e k v1) k v2).logger.entries
      = (XDCCacheImpl.Put c e k v1).logger.entries ++ [] := by
  have hget : (c.Get (XDCCacheImpl.Put c e k v1).cache k).1 = some v1 := by
    rw [hc.get_val, Put_view c view hc]
    simp
  rw [Put_logger_same c (XDCCacheImpl.Put c e k v1) k v2 v1 hget hsame]
  simp

theorem second_put_same_next_logs_nothing_witness :
    NoEviction Store.cache Store.view
      ∧ value15.NextEventID = value15Bad.NextEventID
      ∧ (XDCCacheImpl.Put Store.cache
          (XDCCacheImpl.Put Store.cache sampleCache key52 value15) key52
            value15Bad).logger.entries
        = (XDCCacheImpl.Put Store.cache sampleCache key52 value15).logger.entries ++ [] :=
  ⟨Store.cache_noEviction, by decide,
    second_put_same_next_logs_nothing Store.cache Store.view Store.cache_noEviction
      sampleCache key52 value15 value15Bad (by decide)⟩

/-- C7: Put is a total function of the cache state, whatever the serializer does,
and on every path it ends with the write of the incoming value under the key, so
that while the store does not evict the store maps the key to the incoming value.
When the stored value has another NextEventID the entries appended are the error of
the existing side (if any), the error of the incoming side (if any) and the
duplicate-key entry, where each side is decided by its own blobs alone: a side with
a failing blob appends one error entry, for its first failing blob, and is nil in the
duplicate-key entry; a side whose blobs all deserialize appends nothing and is
reported with all its batches. -/
theorem put_overwrites_whatever_deserialization_does {σ : Type} (c : Cache σ)
    (e : XDCCacheImpl σ) (k : XDCCacheKey) (v : XDCCacheValue) :
    (XDCCacheImpl.Put c e k v).cache = c.Put (c.Get e.cache k).2 k v
      ∧ (∀ view, NoEviction c view → view (XDCCacheImpl.Put c e k v).cache k = some v)
      ∧ (∀ ex, (c.Get e.cache k).1 = some ex → ex.NextEventID ≠ v.NextEventID →
          (XDCCacheImpl.Put c e k v).logger.entries =
            e.logger.entries
              ++ (sideErrors e.serializer.deserialize ex.EventBlobs
              ++ (sideErrors e.serializer.deserialize v.EventBlobs
              ++ [duplicateKeyEntry k (sideEvents e.serializer.deserialize ex.EventBlobs)
                    (sideEvents e.serializer.deserialize v.EventBlobs)])))
      ∧ (∀ (blobs : Option (List (Option DataBlob))) (pre post : List (Option DataBlob))
            (blob : Option DataBlob) (err : GoError),
          rangeOf blobs = pre ++ blob :: post →
          (∀ b ∈ pre, ∃ evs, e.serializer.deserialize b = Except.ok evs) →
          e.serializer.deserialize blob = Except.error err →
            sideEvents e.serializer.deserialize blobs = none
              ∧ sideErrors e.serializer.deserialize blobs =
                [{ level := Level.Error, msg := LogMsg.ErrorDeserializingEvents,
                   tags := [Tag.Error err] }])
      ∧ (∀ (blobs : Option (List (Option DataBlob))) (evss : List (List HistoryEvent)),
          (rangeOf blobs).map e.serializer.deserialize = evss.map Except.ok →
            sideEvents e.serializer.deserialize blobs = some evss
              ∧ sideErrors e.serializer.deserialize blobs = []) := by
  refine ⟨Put_cache c e k v, ?_, ?_, ?_, ?_⟩
  · intro view hc
    rw [Put_view c view hc]
    simp
  · intro ex hex hne
    exact Put_logger_mismatch c e k v ex hex hne
  · intro blobs pre post blob err hsplit hpre hblob
    exact side_first_failure _ blobs pre post blob err hsplit hpre hblob
  · intro blobs evss h
    exact side_all_ok _ blobs evss h

theorem put_overwrites_whatever_deserialization_does_witness :
    Store.view (XDCCacheImpl.Put Store.cache
        (XDCCacheImpl.Put Store.cache sampleCache key52 value12) key52 value15Bad).cache key52
      = some value15Bad
    ∧ (XDCCacheImpl.Put Store.cache
        (XDCCacheImpl.Put Store.cache sampleCache key52 value12) key52 value15Bad).logger.entries
      = [] ++ ([] ++ ([
            { level := Level.Error, msg := LogMsg.ErrorDeserializingEvents,
              tags := [Tag.Error (GoError.Serialization "unknown encoding")] }]
          ++ [duplicateKeyEntry key52
                (some [[{ EventId := 1, Version := 2 }, { EventId := 2, Version := 2 },
                  { EventId := 3, Version := 2 }]]) none])) :=
  ⟨(put_overwrites_whatever_deserialization_does Store.cache
      (XDCCacheImpl.Put Store.cache sampleCache key52 value12) key52 value15Bad).2.1
      Store.view Store.cache_noEviction,
    (put_overwrites_whatever_deserialization_does Store.cache
      (XDCCacheImpl.Put Store.cache sampleCache key52 value12) key52 value15Bad).2.2.1
      value12 (by decide) (by decide)⟩

/-! ## Version-history locator -/

theorem copyVersionHistory_items (v : VersionHistory) : (CopyVersionHistory v).Items = v.Items := by
  unfold CopyVersionHistory NewVersionHistoryItem
  simp

theorem copyVersionHistory_token (v : VersionHistory) :
    (CopyVersionHistory v).BranchToken = v.BranchToken := by
  unfold CopyVersionHistory
  simp

/-- The search from index i on finds the first branch that contains the item. -/
theorem findFirstFrom_ok (item : VersionHistoryItem) :
    ∀ (l : List VersionHistory) (i : Nat),
      (∃ b ∈ l, ContainsVersionHistoryItem b item = true) →
        ∃ (j : Nat) (b : VersionHistory), l[j]? = some b ∧ j < l.length
          ∧ ContainsVersionHistoryItem b item = true
          ∧ (∀ j', j' < j → ∀ b', l[j']? = some b' → ContainsVersionHistoryItem b' item = false)
          ∧ findFirstFrom item i l = Except.ok ((i + j : Nat) : Int) := by
  intro l
  induction l with
  | nil =>
    intro i h
    obtain ⟨b, hb, _⟩ := h
    cases hb
  | cons v rest ih =>
    intro i h
    by_cases hv : ContainsVersionHistoryItem v item = true
    · refine ⟨0, v, by simp, by simp, hv, ?_, ?_⟩
      · intro j' hj'
        omega
      · simp [findFirstFrom, hv]
    · have hrest : ∃ b ∈ rest, ContainsVersionHistoryItem b item = true := by
        obtain ⟨b, hb, hcb⟩ := h
        rcases List.mem_cons.mp hb with rfl | hb
        · exact absurd hcb hv
        · exact ⟨b, hb, hcb⟩
      obtain ⟨j, b, hjb, hjlt, hcb, hmin, hfind⟩ := ih (i + 1) hrest
      refine ⟨j + 1, b, by simpa using hjb, by simpa using hjlt, hcb, ?_, ?_⟩
      · intro j' hj' b' hb'
        cases j' with
        | zero =>
          simp only [List.getElem?_cons_zero, Option.some.injEq] at hb'
          subst hb'
          simpa using hv
        | succ n =>
          simp only [List.getElem?_cons_succ] at hb'
          exact hmin n (by omega) b' hb'
      · simp only [findFirstFrom, hv]
        rw [if_neg (by simp), hfind]
        congr 1
        omega

/-- The search fails, with the NotFound-class error, when no branch contains the item. -/
theorem findFirstFrom_error (item : VersionHistoryItem) :
    ∀ (l : List VersionHistory) (i : Nat),
      (∀ b ∈ l, ContainsVersionHistoryItem b item = false) →
        findFirstFrom item i l = Except.error (GoError.NotFound
          "no version-history branch matches the requested event/version pair") := by
  intro l
  induction l with
  | nil => intro i _; rfl
  | cons v rest ih =>
    intro i h
    have hv := h v (by simp)
    simp only [findFirstFrom, hv]
    rw [if_neg (by simp)]
    exact ih (i + 1) (fun b hb => h b (by simp [hb]))

theorem getVersionHistory_at (h : VersionHistories) (j : Nat) (b : VersionHistory)
    (hj : h.Histories[j]? = some b) (hlt : j < h.Histories.length) :
    GetVersionHistory h (j : Int) = Except.ok b := by
  unfold GetVersionHistory
  have hcond : ¬ ((j : Int) < 0 ∨ (j : Int) ≥ (h.Histories.length : Int)) := by omega
  rw [if_neg hcond]
  simp [hj]

/-- The locator on a record in which some branch contains the requested pair. -/
theorem getXDCCacheValue_found (executionInfo : WorkflowExecutionInfo) (eventID version : Int)
    (hex : ∃ b ∈ executionInfo.VersionHistories.Histories,
      ContainsVersionHistoryItem b (NewVersionHistoryItem eventID version) = true) :
    ∃ (i : Nat) (b : VersionHistory),
      executionInfo.VersionHistories.Histories[i]? = some b
        ∧ ContainsVersionHistoryItem b (NewVersionHistoryItem eventID version) = true
        ∧ (∀ j, j < i → ∀ b', executionInfo.VersionHistories.Histories[j]? = some b' →
            ContainsVersionHistoryItem b' (NewVersionHistoryItem eventID version) = false)
        ∧ GetXDCCacheValue executionInfo eventID version =
            Except.ok (b.Items, b.BranchToken,
              CopyBaseWorkflowInfo executionInfo.BaseExecutionInfo) := by
  obtain ⟨j, b, hjb, hjlt, hcb, hmin, hfind⟩ :=
    findFirstFrom_ok (NewVersionHistoryItem eventID version)
      executionInfo.VersionHistories.Histories 0 hex
  refine ⟨j, b, hjb, hcb, hmin, ?_⟩
  unfold GetXDCCacheValue FindFirstVersionHistoryIndexByVersionHistoryItem
  simp only [hfind, Nat.zero_add]
  rw [getVersionHistory_at _ j b hjb hjlt]
  simp [copyVersionHistory_items]

/-- The locator on a record in which no branch contains the requested pair. -/
theorem getXDCCacheValue_notFound (executionInfo : WorkflowExecutionInfo)
    (eventID version : Int)
    (hno : ∀ b ∈ executionInfo.VersionHistories.Histories,
      ContainsVersionHistoryItem b (NewVersionHistoryItem eventID version) = false) :
    GetXDCCacheValue executionInfo eventID version = Except.error (GoError.NotFound
      "no version-history branch matches the requested event/version pair") := by
  unfold GetXDCCacheValue FindFirstVersionHistoryIndexByVersionHistoryItem
  simp only [findFirstFrom_error _ _ 0 hno]

/-- C3: when some version-history branch contains the requested pair, GetXDCCacheValue
succeeds; there is a branch index i such that branch i contains the pair, no branch
of lower index does, and the result is the items of branch i (equal as a sequence,
element by element in the same order), the branch token of branch i, and
CopyBaseWorkflowInfo of the base-execution info of the record, which is nil when
that info is nil. -/
theorem locator_returns_lowest_matching_branch (executionInfo : WorkflowExecutionInfo)
    (eventID version : Int)
    (hex : ∃ b ∈ executionInfo.VersionHistories.Histories,
      ContainsVersionHistoryItem b (NewVersionHistoryItem eventID version) = true) :
    ∃ (i : Nat) (b : VersionHistory),
      executionInfo.VersionHistories.Histories[i]? = some b
        ∧ ContainsVersionHistoryItem b (NewVersionHistoryItem eventID version) = true
        ∧ (∀ j, j < i → ∀ b', executionInfo.VersionHistories.Histories[j]? = some b' →
            ContainsVersionHistoryItem b' (NewVersionHistoryItem eventID version) = false)
        ∧ GetXDCCacheValue executionInfo eventID version =
            Except.ok (b.Items, b.BranchToken,
              CopyBaseWorkflowInfo executionInfo.BaseExecutionInfo)
        ∧ (executionInfo.BaseExecutionInfo = none →
            GetXDCCacheValue executionInfo eventID version =
              Except.ok (b.Items, b.BranchToken, none)) := by
  obtain ⟨i, b, hib, hcb, hmin, hres⟩ := getXDCCacheValue_found executionInfo eventID version hex
  refine ⟨i, b, hib, hcb, hmin, hres, ?_⟩
  intro hnil
  rw [hres, hnil]
  rfl

theorem locator_returns_lowest_matching_branch_witness :
    (∃ b ∈ recordBAC.VersionHistories.Histories,
        ContainsVersionHistoryItem b (NewVersionHistoryItem 10 1) = true)
      ∧ ∃ (i : Nat) (b : VersionHistory),
        recordBAC.VersionHistories.Histories[i]? = some b
          ∧ ContainsVersionHistoryItem b (NewVersionHistoryItem 10 1) = true
          ∧ (∀ j, j < i → ∀ b', recordBAC.VersionHistories.Histories[j]? = some b' →
              ContainsVersionHistoryItem b' (NewVersionHistoryItem 10 1) = false)
          ∧ GetXDCCacheValue recordBAC 10 1 =
              Except.ok (b.Items, b.BranchToken,
                CopyBaseWorkflowInfo recordBAC.BaseExecutionInfo)
          ∧ (recordBAC.BaseExecutionInfo = none →
              GetXDCCacheValue recordBAC 10 1 = Except.ok (b.Items, b.BranchToken, none)) :=
  ⟨⟨branchC, by decide, by decide⟩,
    locator_returns_lowest_matching_branch recordBAC 10 1 ⟨branchC, by decide, by decide⟩⟩

/-- C4: GetXDCCacheValue fails exactly when no version-history branch contains the
requested pair, the error is then of the NotFound class, and whatever error the
branch search returns is the error GetXDCCacheValue returns. -/
theorem locator_fails_iff_no_branch (executionInfo : WorkflowExecutionInfo)
    (eventID version : Int) :
    ((∃ msg, GetXDCCacheValue executionInfo eventID version
          = Except.error (GoError.NotFound msg))
        ↔ ∀ b ∈ executionInfo.VersionHistories.Histories,
            ContainsVersionHistoryItem b (NewVersionHistoryItem eventID version) = false)
      ∧ ((∃ err, GetXDCCacheValue executionInfo eventID version = Except.error err)
        ↔ ∀ b ∈ executionInfo.VersionHistories.Histories,
            ContainsVersionHistoryItem b (NewVersionHistoryItem eventID version) = false)
      ∧ (∀ err, FindFirstVersionHistoryIndexByVersionHistoryItem
            executionInfo.VersionHistories (NewVersionHistoryItem eventID version)
              = Except.error err →
          GetXDCCacheValue executionInfo eventID version = Except.error err) := by
  have hfail : (∃ err, GetXDCCacheValue executionInfo eventID version = Except.error err) →
      ∀ b ∈ executionInfo.VersionHistories.Histories,
        ContainsVersionHistoryItem b (NewVersionHistoryItem eventID version) = false := by
    rintro ⟨err, herr⟩ b hb
    by_contra hcb
    obtain ⟨i, b0, _, _, _, hres⟩ :=
      getXDCCacheValue_found executionInfo eventID version ⟨b, hb, by simpa using hcb⟩
    rw [hres] at herr
    cases herr
  refine ⟨⟨?_, ?_⟩, ⟨hfail, ?_⟩, ?_⟩
  · rintro ⟨msg, hmsg⟩
    exact hfail ⟨_, hmsg⟩
  · intro hno
    exact ⟨_, getXDCCacheValue_notFound executionInfo eventID version hno⟩
  · intro hno
    exact ⟨_, getXDCCacheValue_notFound executionInfo eventID version hno⟩
  · intro err herr
    unfold GetXDCCacheValue
    simp only [herr]

theorem locator_fails_iff_no_branch_witness :
    GetXDCCacheValue recordAB 10 1 = Except.ok (branchA.Items, branchA.BranchToken, none)
      ∧ ContainsVersionHistoryItem branchB (NewVersionHistoryItem 10 1) = false
      ∧ (∃ msg, GetXDCCacheValue recordAB 999 1 = Except.error (GoError.NotFound msg)) :=
  ⟨rfl, by decide,
    (locator_fails_iff_no_branch recordAB 999 1).1.mpr (by decide)⟩

/-! ## Size accounting -/

theorem wrapInt_add_left (a b : Int) : wrapInt (wrapInt a + b) = wrapInt (a + b) := by
  unfold wrapInt
  omega

theorem wrapInt_add_right (a b : Int) : wrapInt (a + wrapInt b) = wrapInt (a + b) := by
  unfold wrapInt
  omega

theorem wrapInt_of_range (x : Int) (hlo : -9223372036854775808 ≤ x)
    (hhi : x < 9223372036854775808) : wrapInt x = x := by
  unfold wrapInt
  omega

/-- The accumulation loop of CacheSize adds up the sizes, modulo wrapping. -/
theorem wrapInt_foldl {α : Type} (g : α → Int) :
    ∀ (l : List α) (a : Int),
      wrapInt (l.foldl (fun size x => wrapInt (size + g x)) a) = wrapInt (a + (l.map g).sum) := by
  intro l
  induction l with
  | nil => intro a; simp
  | cons x rest ih =>
    intro a
    simp only [List.foldl_cons, List.map_cons, List.sum_cons]
    rw [ih, wrapInt_add_left, Int.add_assoc]

theorem cacheSize_eq_wrap (sz : ProtoSize) (v : XDCCacheValue) :
    v.CacheSize sz = wrapInt (componentSizes sz v) := by
  unfold XDCCacheValue.CacheSize componentSizes
  simp only []
  rw [← wrapInt_add_right, wrapInt_foldl, ← wrapInt_add_left
    (List.foldl _ 0 (rangeOf v.VersionHistoryItems)), wrapInt_foldl, wrapInt_add_left,
    wrapInt_add_right]
  congr 1
  omega

/-- C8: CacheSize of a value is the size of its base info plus the sizes of its
checkpoint items plus the sizes of its event blobs, in Go int arithmetic, and equals
that sum as an integer whenever the sum is in the range of int; a nil base info
contributes 0, NextEventID does not contribute, and a value with nil base info and
no items and no blobs has CacheSize 0. -/
theorem cacheSize_is_sum_of_components (sz : ProtoSize) (v : XDCCacheValue) :
    v.CacheSize sz =
        wrapInt (sizeOfPtr sz.baseExecutionInfo v.BaseWorkflowInfo
          + ((rangeOf v.VersionHistoryItems).map (sizeOfPtr sz.versionHistoryItem)).sum
          + ((rangeOf v.EventBlobs).map (sizeOfPtr sz.dataBlob)).sum)
      ∧ (-9223372036854775808 ≤ componentSizes sz v →
          componentSizes sz v < 9223372036854775808 →
          v.CacheSize sz =
            sizeOfPtr sz.baseExecutionInfo v.BaseWorkflowInfo
              + ((rangeOf v.VersionHistoryItems).map (sizeOfPtr sz.versionHistoryItem)).sum
              + ((rangeOf v.EventBlobs).map (sizeOfPtr sz.dataBlob)).sum)
      ∧ (v.BaseWorkflowInfo = none →
          v.CacheSize sz =
            wrapInt (((rangeOf v.VersionHistoryItems).map (sizeOfPtr sz.versionHistoryItem)).sum
              + ((rangeOf v.EventBlobs).map (sizeOfPtr sz.dataBlob)).sum))
      ∧ (∀ n : Int, XDCCacheValue.CacheSize sz { v with NextEventID := n } = v.CacheSize sz)
      ∧ (∀ (items : Option (List (Option VersionHistoryItem)))
            (blobs : Option (List (Option DataBlob))) (n : Int),
          rangeOf items = [] → rangeOf blobs = [] →
            XDCCacheValue.CacheSize sz
              { BaseWorkflowInfo := none, VersionHistoryItems := items, EventBlobs := blobs,
                NextEventID := n } = 0) := by
  refine ⟨cacheSize_eq_wrap sz v, ?_, ?_, ?_, ?_⟩
  · intro hlo hhi
    rw [cacheSize_eq_wrap, wrapInt_of_range _ hlo hhi]
    rfl
  · intro hnil
    rw [cacheSize_eq_wrap]
    unfold componentSizes
    rw [hnil]
    simp [sizeOfPtr]
  · intro n
    rfl
  · intro items blobs n hi hb
    rw [cacheSize_eq_wrap]
    unfold componentSizes
    simp only [hi, hb]
    rfl

theorem cacheSize_is_sum_of_components_witness :
    (-9223372036854775808 ≤ componentSizes sampleSize value15Bad
      ∧ componentSizes sampleSize value15Bad < 9223372036854775808)
      ∧ value15Bad.CacheSize sampleSize = 0 + (4 + 0) + (5 + (2 + (5 + 0)))
      ∧ XDCCacheValue.CacheSize sampleSize
          { BaseWorkflowInfo := none, VersionHistoryItems := some [], EventBlobs := none,
            NextEventID := 9 } = 0 :=
  ⟨by decide,
    (cacheSize_is_sum_of_components sampleSize value15Bad).2.1 (by decide) (by decide),
    (cacheSize_is_sum_of_components sampleSize value15Bad).2.2.2.2 (some []) none 9 rfl rfl⟩

/-! ## Base-info copier -/

theorem Heap.deref_lt (h : Heap) (a : Nat) (x : BaseExecutionInfo) (hx : h.deref a = some x) :
    a < h.cells.length := by
  unfold Heap.deref at hx
  by_contra hge
  rw [List.getElem?_eq_none (by omega)] at hx
  cases hx

theorem Heap.deref_alloc_new (h : Heap) (r : BaseExecutionInfo) :
    (h.alloc r).2.deref (h.alloc r).1 = some r := by
  simp [Heap.alloc, Heap.deref]

theorem Heap.deref_alloc_old (h : Heap) (r : BaseExecutionInfo) (b : Nat)
    (hb : b ≠ (h.alloc r).1) : (h.alloc r).2.deref b = h.deref b := by
  simp only [Heap.alloc, Heap.deref] at *
  rcases Nat.lt_or_gt_of_ne hb with hlt | hgt
  · rw [List.getElem?_append_left hlt]
  · rw [List.getElem?_eq_none (by simp; omega), List.getElem?_eq_none (by omega)]

theorem Heap.deref_store_other (h : Heap) (p b : Nat) (r : BaseExecutionInfo) (hb : b ≠ p) :
    (h.store p r).deref b = h.deref b := by
  simp only [Heap.store, Heap.deref]
  rw [List.getElem?_set_ne (Ne.symm hb)]

/-- C9: CopyBaseWorkflowInfo of nil is nil and touches no memory. For a pointer to a
record x it returns a pointer to a new record (an address that was not in use, so
different from the source) whose RunId, LowestCommonAncestorEventId and
LowestCommonAncestorEventVersion are those of x; the call leaves every record that
existed as it was, and after overwriting the result with any record whatsoever the
source still reads x and every other record is unchanged. -/
theorem copyBaseWorkflowInfo_is_independent_copy (h : Heap) :
    CopyBaseWorkflowInfoAt h none = some (none, h)
      ∧ CopyBaseWorkflowInfo none = none
      ∧ ∀ (a : Nat) (x : BaseExecutionInfo), h.deref a = some x →
          ∃ (p : Nat) (h' : Heap),
            CopyBaseWorkflowInfoAt h (some a) = some (some p, h')
              ∧ p ≠ a ∧ h.deref p = none
              ∧ (∃ y, h'.deref p = some y ∧ y.RunId = x.RunId
                  ∧ y.LowestCommonAncestorEventId = x.LowestCommonAncestorEventId
                  ∧ y.LowestCommonAncestorEventVersion = x.LowestCommonAncestorEventVersion)
              ∧ h'.deref p = CopyBaseWorkflowInfo (h.deref a)
              ∧ (∀ b, b ≠ p → h'.deref b = h.deref b)
              ∧ (∀ r : BaseExecutionInfo, (h'.store p r).deref a = some x)
              ∧ (∀ (r : BaseExecutionInfo) (b : Nat), b ≠ p →
                  (h'.store p r).deref b = h.deref b) := by
  refine ⟨rfl, rfl, ?_⟩
  intro a x hx
  have hlt := Heap.deref_lt h a x hx
  have hne : h.cells.length ≠ a := by omega
  refine ⟨(h.alloc x).1, (h.alloc x).2, ?_, hne, ?_, ⟨x, ?_, rfl, rfl, rfl⟩, ?_, ?_, ?_, ?_⟩
  · simp [CopyBaseWorkflowInfoAt, hx, Heap.alloc]
  · simp [Heap.alloc, Heap.deref]
  · exact Heap.deref_alloc_new h x
  · rw [Heap.deref_alloc_new, hx]
    rfl
  · intro b hb
    exact Heap.deref_alloc_old h x b hb
  · intro r
    have hne' : a ≠ (h.alloc x).1 := Ne.symm hne
    rw [Heap.deref_store_other _ _ _ _ hne', Heap.deref_alloc_old h x a hne', hx]
  · intro r b hb
    rw [Heap.deref_store_other _ _ _ _ hb, Heap.deref_alloc_old h x b hb]

theorem copyBaseWorkflowInfo_is_independent_copy_witness :
    sampleHeap.deref 1 = some sampleBase
      ∧ ∃ (p : Nat) (h' : Heap),
          CopyBaseWorkflowInfoAt sampleHeap (some 1) = some (some p, h')
            ∧ p ≠ 1 ∧ sampleHeap.deref p = none
            ∧ (∃ y, h'.deref p = some y ∧ y.RunId = sampleBase.RunId
                ∧ y.LowestCommonAncestorEventId = sampleBase.LowestCommonAncestorEventId
                ∧ y.LowestCommonAncestorEventVersion
                    = sampleBase.LowestCommonAncestorEventVersion)
            ∧ h'.deref p = CopyBaseWorkflowInfo (sampleHeap.deref 1)
            ∧ (∀ b, b ≠ p → h'.deref b = sampleHeap.deref b)
            ∧ (∀ r : BaseExecutionInfo, (h'.store p r).deref 1 = some sampleBase)
            ∧ (∀ (r : BaseExecutionInfo) (b : Nat), b ≠ p →
                (h'.store p r).deref b = sampleHeap.deref b) :=
  ⟨by decide, (copyBaseWorkflowInfo_is_independent_copy sampleHeap).2.2 1 sampleBase (by decide)⟩

/-! ## Construction -/

/-- C10: for every configured maxBytes, zero and negative included, and whatever the
store constructor is, NewEventsBlobCache builds its store with capacity
max(maxBytes, 65536), the given TTL and pinning disabled; that capacity is never
below 65536 and is maxBytes whenever maxBytes is at least 65536. The modelled store,
which records its configuration, shows the same values. -/
theorem newEventsBlobCache_capacity_floor {σ : Type} (New : Int → Options → σ)
    (ser : Serializer) (maxBytes ttl : Int) (logger : Logger) :
    (NewEventsBlobCache New ser maxBytes ttl logger).cache
        = New (max maxBytes 65536) { TTL := ttl, Pin := false }
      ∧ (NewEventsBlobCache Store.New ser maxBytes ttl logger).cache.maxSize
          = max maxBytes 65536
      ∧ 65536 ≤ (NewEventsBlobCache Store.New ser maxBytes ttl logger).cache.maxSize
      ∧ (65536 ≤ maxBytes →
          (NewEventsBlobCache Store.New ser maxBytes ttl logger).cache.maxSize = maxBytes)
      ∧ (maxBytes ≤ 65536 →
          (NewEventsBlobCache Store.New ser maxBytes ttl logger).cache.maxSize = 65536)
      ∧ (NewEventsBlobCache Store.New ser maxBytes ttl logger).cache.opts.TTL = ttl
      ∧ (NewEventsBlobCache Store.New ser maxBytes ttl logger).cache.opts.Pin = false := by
  have hmin : xdcMinCacheSize = 65536 := by decide
  have hcap : max xdcMinCacheSize maxBytes = max maxBytes 65536 := by
    rw [hmin, max_comm]
  refine ⟨?_, ?_, ?_, ?_, ?_, rfl, rfl⟩
  · simp only [NewEventsBlobCache, hcap]
  · simp only [NewEventsBlobCache, Store.New, hcap]
  · simp only [NewEventsBlobCache, Store.New, hcap]
    exact le_max_right _ _
  · intro hge
    simp only [NewEventsBlobCache, Store.New, hcap]
    exact max_eq_left hge
  · intro hle
    simp only [NewEventsBlobCache, Store.New, hcap]
    exact max_eq_right hle

theorem newEventsBlobCache_capacity_floor_witness :
    (NewEventsBlobCache Store.New sampleSerializer (-5) 3600 { entries := [] }).cache.maxSize
        = 65536
      ∧ (NewEventsBlobCache Store.New sampleSerializer 0 3600 { entries := [] }).cache.maxSize
        = 65536
      ∧ (NewEventsBlobCache Store.New sampleSerializer 1000000 3600
          { entries := [] }).cache.maxSize = 1000000 :=
  ⟨(newEventsBlobCache_capacity_floor Store.New sampleSerializer (-5) 3600
      { entries := [] }).2.2.2.2.1 (by decide),
    (newEventsBlobCache_capacity_floor Store.New sampleSerializer 0 3600
      { entries := [] }).2.2.2.2.1 (by decide),
    (newEventsBlobCache_capacity_floor Store.New sampleSerializer 1000000 3600
      { entries := [] }).2.2.2.1 (by decide)⟩

/-! ## Serializer calls, entry counts and the frame of Put -/

theorem Get_serializer {σ : Type} (c : Cache σ) (e : XDCCacheImpl σ) (k : XDCCacheKey) :
    (XDCCacheImpl.Get c e k).2.serializer = e.serializer := by
  rw [Get_snd]

theorem Get_logger {σ : Type} (c : Cache σ) (e : XDCCacheImpl σ) (k : XDCCacheKey) :
    (XDCCacheImpl.Get c e k).2.logger = e.logger := by
  rw [Get_snd]

/-- Put on a key the store does not hold leaves the serializer untouched. -/
theorem Put_serializer_absent {σ : Type} (c : Cache σ) (e : XDCCacheImpl σ) (k : XDCCacheKey)
    (v : XDCCacheValue) (h : (c.Get e.cache k).1 = none) :
    (XDCCacheImpl.Put c e k v).serializer = e.serializer := by
  unfold XDCCacheImpl.Put
  simp [Get_fst, Get_snd, h]

/-- Put over a stored value with the same NextEventID leaves the serializer untouched. -/
theorem Put_serializer_same {σ : Type} (c : Cache σ) (e : XDCCacheImpl σ) (k : XDCCacheKey)
    (v ex : XDCCacheValue) (h : (c.Get e.cache k).1 = some ex)
    (hsame : ex.NextEventID = v.NextEventID) :
    (XDCCacheImpl.Put c e k v).serializer = e.serializer := by
  unfold XDCCacheImpl.Put
  simp [Get_fst, Get_snd, h, hsame]

/-- Put over a stored value with another NextEventID calls the serializer on the
blobs attempted on the existing side, then on those attempted on the incoming side. -/
theorem Put_calls_mismatch {σ : Type} (c : Cache σ) (e : XDCCacheImpl σ) (k : XDCCacheKey)
    (v ex : XDCCacheValue) (h : (c.Get e.cache k).1 = some ex)
    (hne : ex.NextEventID ≠ v.NextEventID) :
    (XDCCacheImpl.Put c e k v).serializer.calls =
      e.serializer.calls
        ++ (attempted e.serializer.deserialize (rangeOf ex.EventBlobs)
        ++ attempted e.serializer.deserialize (rangeOf v.EventBlobs)) := by
  unfold XDCCacheImpl.Put
  simp [Get_fst, Get_snd, h, hne, deserializeBlobs_eq]

theorem attempted_first_failure (f : Option DataBlob → Except GoError (List HistoryEvent)) :
    ∀ (pre post : List (Option DataBlob)) (blob : Option DataBlob) (err : GoError),
      (∀ b ∈ pre, ∃ evs, f b = Except.ok evs) → f blob = Except.error err →
        attempted f (pre ++ blob :: post) = pre ++ [blob] := by
  intro pre
  induction pre with
  | nil =>
    intro post blob err _ hblob
    simp [attempted, hblob]
  | cons p ps ih =>
    intro post blob err hpre hblob
    obtain ⟨evs, hp⟩ := hpre p (by simp)
    have hrest := ih post blob err (fun b hb => hpre b (by simp [hb])) hblob
    rw [List.cons_append]
    unfold attempted
    simp only [hp]
    rw [hrest]
    rfl

theorem attempted_all_ok (f : Option DataBlob → Except GoError (List HistoryEvent)) :
    ∀ (l : List (Option DataBlob)), (∀ b ∈ l, ∃ evs, f b = Except.ok evs) →
      attempted f l = l := by
  intro l
  induction l with
  | nil => intro _; rfl
  | cons p ps ih =>
    intro h
    obtain ⟨evs, hp⟩ := h p (by simp)
    simp only [attempted, hp]
    rw [ih (fun b hb => h b (by simp [hb]))]

/-- A side emits one entry when one of its blobs fails and none otherwise. -/
theorem sideErrors_length (f : Option DataBlob → Except GoError (List HistoryEvent))
    (blobs : Option (List (Option DataBlob))) :
    (sideErrors f blobs).length = if sideFails f blobs then 1 else 0 := by
  unfold sideErrors sideFails
  generalize rangeOf blobs = l
  induction l with
  | nil => simp [deserializeAll]
  | cons p ps ih =>
    unfold deserializeAll
    cases hp : f p with
    | error err => simp [hp]
    | ok evs =>
      simp only [List.any_cons, hp, Bool.false_or]
      cases hr : deserializeAll f ps with
      | error err =>
        rw [hr] at ih
        simpa using ih
      | ok evss =>
        rw [hr] at ih
        simpa using ih

theorem sideEvents_eq_none_iff (f : Option DataBlob → Except GoError (List HistoryEvent))
    (blobs : Option (List (Option DataBlob))) :
    sideEvents f blobs = none ↔ sideFails f blobs = true := by
  have hlen := sideErrors_length f blobs
  unfold sideErrors at hlen
  unfold sideEvents
  cases hd : deserializeAll f (rangeOf blobs) with
  | error err =>
    rw [hd] at hlen
    cases hs : sideFails f blobs with
    | true => simp
    | false => simp [hs] at hlen
  | ok evss =>
    rw [hd] at hlen
    cases hs : sideFails f blobs with
    | true => simp [hs] at hlen
    | false => simp

/-- Every log entry is of level Error, the only level this package logs at. -/
theorem logEntry_level (x : LogEntry) : x.level = Level.Error := by
  cases h : x.level
  rfl

/-- Under the no-eviction assumption Put leaves what Get returns for another key. -/
theorem Get_other_after_Put {σ : Type} (c : Cache σ)
    (view : σ → XDCCacheKey → Option XDCCacheValue) (hc : NoEviction c view)
    (e : XDCCacheImpl σ) (k k' : XDCCacheKey) (v : XDCCacheValue) (hk : k ≠ k') :
    (XDCCacheImpl.Get c (XDCCacheImpl.Put c e k v) k').1 = (XDCCacheImpl.Get c e k').1 := by
  rw [Get_fst, Get_fst, hc.get_val, hc.get_val, Put_view c view hc]
  simp [Ne.symm hk]

/-- C11: two keys built by NewXDCCacheKey are equal exactly when their workflow keys
agree in namespace id, workflow id and run id and their MinEventID and Version
agree. Hence, while the store does not evict, a value Put under a key is returned by
Get under any key built from the same components, and a Put under a key that differs
in some component leaves what Get returns under the other key as it was (zero and
false when the store held nothing under it). -/
theorem xdcCacheKey_structural_equality {σ : Type} (c : Cache σ)
    (view : σ → XDCCacheKey → Option XDCCacheValue) (e : XDCCacheImpl σ)
    (w1 w2 : WorkflowKey) (m1 m2 ver1 ver2 : Int) (v : XDCCacheValue) :
    (NewXDCCacheKey w1 m1 ver1 = NewXDCCacheKey w2 m2 ver2 ↔
        (w1.NamespaceID = w2.NamespaceID ∧ w1.WorkflowID = w2.WorkflowID
          ∧ w1.RunID = w2.RunID) ∧ m1 = m2 ∧ ver1 = ver2)
      ∧ (NoEviction c view →
          ((w1.NamespaceID = w2.NamespaceID ∧ w1.WorkflowID = w2.WorkflowID
            ∧ w1.RunID = w2.RunID) ∧ m1 = m2 ∧ ver1 = ver2) →
          (XDCCacheImpl.Get c (XDCCacheImpl.Put c e (NewXDCCacheKey w1 m1 ver1) v)
            (NewXDCCacheKey w2 m2 ver2)).1 = (v, true))
      ∧ (NoEviction c view →
          ¬ ((w1.NamespaceID = w2.NamespaceID ∧ w1.WorkflowID = w2.WorkflowID
            ∧ w1.RunID = w2.RunID) ∧ m1 = m2 ∧ ver1 = ver2) →
          (XDCCacheImpl.Get c (XDCCacheImpl.Put c e (NewXDCCacheKey w1 m1 ver1) v)
            (NewXDCCacheKey w2 m2 ver2)).1
            = (XDCCacheImpl.Get c e (NewXDCCacheKey w2 m2 ver2)).1)
      ∧ (NoEviction c view →
          ¬ ((w1.NamespaceID = w2.NamespaceID ∧ w1.WorkflowID = w2.WorkflowID
            ∧ w1.RunID = w2.RunID) ∧ m1 = m2 ∧ ver1 = ver2) →
          view e.cache (NewXDCCacheKey w2 m2 ver2) = none →
          (XDCCacheImpl.Get c (XDCCacheImpl.Put c e (NewXDCCacheKey w1 m1 ver1) v)
            (NewXDCCacheKey w2 m2 ver2)).1 = (XDCCacheValue.zero, false)) := by
  have hiff : NewXDCCacheKey w1 m1 ver1 = NewXDCCacheKey w2 m2 ver2 ↔
      (w1.NamespaceID = w2.NamespaceID ∧ w1.WorkflowID = w2.WorkflowID
        ∧ w1.RunID = w2.RunID) ∧ m1 = m2 ∧ ver1 = ver2 := by
    obtain ⟨n1, i1, r1⟩ := w1
    obtain ⟨n2, i2, r2⟩ := w2
    simp [NewXDCCacheKey]
  refine ⟨hiff, ?_, ?_, ?_⟩
  · intro hc heq
    rw [← hiff.mpr heq]
    exact Get_after_Put c view hc e _ v
  · intro hc hne
    exact Get_other_after_Put c view hc e _ _ v (fun h => hne (hiff.mp h))
  · intro hc hne hnone
    rw [Get_other_after_Put c view hc e _ _ v (fun h => hne (hiff.mp h)), Get_fst,
      hc.get_val, hnone]

theorem xdcCacheKey_structural_equality_witness :
    (XDCCacheImpl.Get Store.cache
        (XDCCacheImpl.Put Store.cache sampleCache (NewXDCCacheKey wfKey 5 2) value12)
        (NewXDCCacheKey { NamespaceID := "ns", WorkflowID := "wf", RunID := "run" } 5 2)).1
        = (value12, true)
      ∧ (XDCCacheImpl.Get Store.cache
          (XDCCacheImpl.Put Store.cache sampleCache (NewXDCCacheKey wfKey 5 2) value12)
          (NewXDCCacheKey wfKeyOtherRun 5 2)).1 = (XDCCacheValue.zero, false)
      ∧ (XDCCacheImpl.Get Store.cache
          (XDCCacheImpl.Put Store.cache sampleCache (NewXDCCacheKey wfKey 5 2) value12)
          (NewXDCCacheKey wfKey 6 2)).1 = (XDCCacheValue.zero, false)
      ∧ (XDCCacheImpl.Get Store.cache
          (XDCCacheImpl.Put Store.cache sampleCache (NewXDCCacheKey wfKey 5 2) value12)
          (NewXDCCacheKey wfKey 5 3)).1 = (XDCCacheValue.zero, false) :=
  ⟨(xdcCacheKey_structural_equality Store.cache Store.view sampleCache wfKey
      { NamespaceID := "ns", WorkflowID := "wf", RunID := "run" } 5 5 2 2 value12).2.1
      Store.cache_noEviction (by decide),
    (xdcCacheKey_structural_equality Store.cache Store.view sampleCache wfKey
      wfKeyOtherRun 5 5 2 2 value12).2.2.2 Store.cache_noEviction (by decide) rfl,
    (xdcCacheKey_structural_equality Store.cache Store.view sampleCache wfKey
      wfKey 5 6 2 2 value12).2.2.2 Store.cache_noEviction (by decide) rfl,
    (xdcCacheKey_structural_equality Store.cache Store.view sampleCache wfKey
      wfKey 5 5 2 3 value12).2.2.2 Store.cache_noEviction (by decide) rfl⟩

/-- C12: Put calls DeserializeEvents only on a NextEventID mismatch: when the store
has no entry for the key, or the stored value has the NextEventID of the incoming
value, the serializer is exactly as before the Put, so the list of blobs it was called
on has not grown, however many blobs either value carries. Get leaves the
serializer as it was too. -/
theorem serializer_called_only_on_mismatch {σ : Type} (c : Cache σ) (e : XDCCacheImpl σ)
    (k : XDCCacheKey) (v : XDCCacheValue) :
    ((c.Get e.cache k).1 = none →
        (XDCCacheImpl.Put c e k v).serializer.calls = e.serializer.calls ++ [])
      ∧ (∀ ex, (c.Get e.cache k).1 = some ex → ex.NextEventID = v.NextEventID →
          (XDCCacheImpl.Put c e k v).serializer.calls = e.serializer.calls ++ [])
      ∧ (XDCCacheImpl.Get c e k).2.serializer.calls = e.serializer.calls ++ []
      ∧ ((XDCCacheImpl.Put c e k v).serializer.calls ≠ e.serializer.calls →
          ∃ ex, (c.Get e.cache k).1 = some ex ∧ ex.NextEventID ≠ v.NextEventID) := by
  refine ⟨?_, ?_, ?_, ?_⟩
  · intro h
    rw [Put_serializer_absent c e k v h, List.append_nil]
  · intro ex h hsame
    rw [Put_serializer_same c e k v ex h hsame, List.append_nil]
  · rw [Get_serializer, List.append_nil]
  · intro hchg
    cases h : (c.Get e.cache k).1 with
    | none =>
      rw [Put_serializer_absent c e k v h] at hchg
      exact absurd rfl hchg
    | some ex =>
      refine ⟨ex, rfl, ?_⟩
      intro hsame
      rw [Put_serializer_same c e k v ex h hsame] at hchg
      exact absurd rfl hchg

theorem serializer_called_only_on_mismatch_witness :
    (XDCCacheImpl.Put Store.cache sampleCache key52 value15Bad).serializer.calls
        = sampleCache.serializer.calls ++ []
      ∧ (XDCCacheImpl.Put Store.cache
          (XDCCacheImpl.Put Store.cache sampleCache key52 value15) key52
          value15Bad).serializer.calls
        = (XDCCacheImpl.Put Store.cache sampleCache key52 value15).serializer.calls ++ [] :=
  ⟨(serializer_called_only_on_mismatch Store.cache sampleCache key52 value15Bad).1 rfl,
    (serializer_called_only_on_mismatch Store.cache
      (XDCCacheImpl.Put Store.cache sampleCache key52 value15) key52 value15Bad).2.1
      value15 rfl (by decide)⟩

theorem sideFails_iff (f : Option DataBlob → Except GoError (List HistoryEvent))
    (blobs : Option (List (Option DataBlob))) :
    sideFails f blobs = true ↔ ∃ b ∈ rangeOf blobs, ∃ err, f b = Except.error err := by
  unfold sideFails
  rw [List.any_eq_true]
  constructor
  · rintro ⟨b, hb, hf⟩
    refine ⟨b, hb, ?_⟩
    cases hfb : f b with
    | error err => exact ⟨err, rfl⟩
    | ok evs => simp [hfb] at hf
  · rintro ⟨b, hb, err, hf⟩
    exact ⟨b, hb, by simp [hf]⟩

/-- C13: the entries a single Put appends to the log, all of level Error: none when
the store has no entry for the key or the stored NextEventID is the incoming one;
otherwise the duplicate-key entry plus one deserialization-error entry for each of
the two sides on which some blob fails, so between one and three. On a failing side
the serializer is called on the blobs up to and including the first failing one and
on no later blob; on a side without failure it is called on every blob. -/
theorem put_error_entry_count {σ : Type} (c : Cache σ) (e : XDCCacheImpl σ)
    (k : XDCCacheKey) (v : XDCCacheValue) :
    ((c.Get e.cache k).1 = none →
        (XDCCacheImpl.Put c e k v).logger.entries = e.logger.entries ++ [])
      ∧ (∀ ex, (c.Get e.cache k).1 = some ex → ex.NextEventID = v.NextEventID →
          (XDCCacheImpl.Put c e k v).logger.entries = e.logger.entries ++ [])
      ∧ (∀ ex, (c.Get e.cache k).1 = some ex → ex.NextEventID ≠ v.NextEventID →
          ∃ added : List LogEntry,
            (XDCCacheImpl.Put c e k v).logger.entries = e.logger.entries ++ added
              ∧ added.length =
                  1 + (if sideFails e.serializer.deserialize ex.EventBlobs then 1 else 0)
                    + (if sideFails e.serializer.deserialize v.EventBlobs then 1 else 0)
              ∧ 1 ≤ added.length ∧ added.length ≤ 3
              ∧ (∀ x ∈ added, x.level = Level.Error)
              ∧ (added.filter LogEntry.isDuplicateKey).length = 1
              ∧ (∀ x ∈ added, x.isDuplicateKey = false →
                  x.msg = LogMsg.ErrorDeserializingEvents)
              ∧ (XDCCacheImpl.Put c e k v).serializer.calls =
                  e.serializer.calls
                    ++ (attempted e.serializer.deserialize (rangeOf ex.EventBlobs)
                    ++ attempted e.serializer.deserialize (rangeOf v.EventBlobs)))
      ∧ (∀ blobs : Option (List (Option DataBlob)),
          sideFails e.serializer.deserialize blobs = true ↔
            ∃ b ∈ rangeOf blobs, ∃ err, e.serializer.deserialize b = Except.error err)
      ∧ (∀ (blobs : Option (List (Option DataBlob))) (pre post : List (Option DataBlob))
            (blob : Option DataBlob) (err : GoError),
          rangeOf blobs = pre ++ blob :: post →
          (∀ b ∈ pre, ∃ evs, e.serializer.deserialize b = Except.ok evs) →
          e.serializer.deserialize blob = Except.error err →
            attempted e.serializer.deserialize (rangeOf blobs) = pre ++ [blob])
      ∧ (∀ blobs : Option (List (Option DataBlob)),
          sideFails e.serializer.deserialize blobs = false →
            attempted e.serializer.deserialize (rangeOf blobs) = rangeOf blobs) := by
  refine ⟨?_, ?_, ?_, ?_, ?_, ?_⟩
  · intro h
    rw [Put_logger_absent c e k v h, List.append_nil]
  · intro ex h hsame
    rw [Put_logger_same c e k v ex h hsame, List.append_nil]
  · intro ex h hne
    have hlen1 := sideErrors_length e.serializer.deserialize ex.EventBlobs
    have hlen2 := sideErrors_length e.serializer.deserialize v.EventBlobs
    have hle1 := sideErrors_length_le e.serializer.deserialize ex.EventBlobs
    have hle2 := sideErrors_length_le e.serializer.deserialize v.EventBlobs
    refine ⟨sideErrors e.serializer.deserialize ex.EventBlobs
        ++ (sideErrors e.serializer.deserialize v.EventBlobs
        ++ [duplicateKeyEntry k (sideEvents e.serializer.deserialize ex.EventBlobs)
              (sideEvents e.serializer.deserialize v.EventBlobs)]),
      Put_logger_mismatch c e k v ex h hne, ?_, ?_, ?_, ?_, ?_, ?_,
      Put_calls_mismatch c e k v ex h hne⟩
    · simp only [List.length_append, List.length_singleton, hlen1, hlen2]
      omega
    · simp only [List.length_append, List.length_singleton]
      omega
    · simp only [List.length_append, List.length_singleton]
      omega
    · intro x _
      exact logEntry_level x
    · simp [List.filter_append, sideErrors_not_duplicate, LogEntry.isDuplicateKey,
        duplicateKeyEntry]
    · intro x hx hnd
      rcases List.mem_append.mp hx with h1 | h2
      · exact sideErrors_msg _ _ x h1
      · rcases List.mem_append.mp h2 with h2 | h3
        · exact sideErrors_msg _ _ x h2
        · simp only [List.mem_singleton] at h3
          rw [h3] at hnd
          simp [LogEntry.isDuplicateKey, duplicateKeyEntry] at hnd
  · intro blobs
    exact sideFails_iff _ blobs
  · intro blobs pre post blob err hsplit hpre hblob
    rw [hsplit]
    exact attempted_first_failure _ pre post blob err hpre hblob
  · intro blobs hno
    apply attempted_all_ok
    intro b hb
    cases hfb : e.serializer.deserialize b with
    | ok evs => exact ⟨evs, rfl⟩
    | error err =>
      have := (sideFails_iff e.serializer.deserialize blobs).mpr ⟨b, hb, err, hfb⟩
      rw [hno] at this
      cases this

theorem put_error_entry_count_witness :
    ∃ added : List LogEntry,
      (XDCCacheImpl.Put Store.cache
          (XDCCacheImpl.Put Store.cache sampleCache key52 value12) key52
          value15Bad).logger.entries
          = (XDCCacheImpl.Put Store.cache sampleCache key52 value12).logger.entries ++ added
        ∧ added.length = 1 + 0 + 1
        ∧ 1 ≤ added.length ∧ added.length ≤ 3
        ∧ (∀ x ∈ added, x.level = Level.Error)
        ∧ (added.filter LogEntry.isDuplicateKey).length = 1
        ∧ (∀ x ∈ added, x.isDuplicateKey = false → x.msg = LogMsg.ErrorDeserializingEvents)
        ∧ (XDCCacheImpl.Put Store.cache
            (XDCCacheImpl.Put Store.cache sampleCache key52 value12) key52
            value15Bad).serializer.calls
          = [] ++ ([some blobA] ++ [some blobA, some blobBad]) :=
  (put_error_entry_count Store.cache
    (XDCCacheImpl.Put Store.cache sampleCache key52 value12) key52 value15Bad).2.2.1
    value12 rfl (by decide)

/-! ## Reachability of the second error branch of the locator -/

/-- A successful search returns an index of a branch. -/
theorem findFirst_ok_valid (h : VersionHistories) (item : VersionHistoryItem) (idx : Int)
    (hfind : FindFirstVersionHistoryIndexByVersionHistoryItem h item = Except.ok idx) :
    ∃ (j : Nat) (b : VersionHistory), idx = (j : Int) ∧ j < h.Histories.length
      ∧ h.Histories[j]? = some b ∧ ContainsVersionHistoryItem b item = true := by
  unfold FindFirstVersionHistoryIndexByVersionHistoryItem at hfind
  by_cases hex : ∃ b ∈ h.Histories, ContainsVersionHistoryItem b item = true
  · obtain ⟨j, b, hjb, hjlt, hcb, _, hres⟩ := findFirstFrom_ok item h.Histories 0 hex
    rw [hres] at hfind
    refine ⟨j, b, ?_, hjlt, hjb, hcb⟩
    have := Except.ok.inj hfind
    rw [← this]
    simp
  · have hno : ∀ b ∈ h.Histories, ContainsVersionHistoryItem b item = false := by
      intro b hb
      cases hcb : ContainsVersionHistoryItem b item with
      | false => rfl
      | true => exact absurd ⟨b, hb, hcb⟩ hex
    rw [findFirstFrom_error item h.Histories 0 hno] at hfind
    cases hfind

/-- C14: whenever the branch search succeeds, the index it returns is at least 0 and
below the number of branches, and fetching the branch by that index succeeds. So
the second error branch of GetXDCCacheValue is never taken: every error that
GetXDCCacheValue returns is the error of the search, which is the not-found error. -/
theorem locator_second_error_branch_unreachable (executionInfo : WorkflowExecutionInfo)
    (eventID version : Int) :
    (∀ idx, FindFirstVersionHistoryIndexByVersionHistoryItem executionInfo.VersionHistories
          (NewVersionHistoryItem eventID version) = Except.ok idx →
        0 ≤ idx ∧ idx < (executionInfo.VersionHistories.Histories.length : Int)
          ∧ ∃ b, GetVersionHistory executionInfo.VersionHistories idx = Except.ok b
              ∧ executionInfo.VersionHistories.Histories[idx.toNat]? = some b)
      ∧ (∀ err, GetXDCCacheValue executionInfo eventID version = Except.error err →
          FindFirstVersionHistoryIndexByVersionHistoryItem executionInfo.VersionHistories
            (NewVersionHistoryItem eventID version) = Except.error err)
      ∧ (∀ err, GetXDCCacheValue executionInfo eventID version = Except.error err →
          err = GoError.NotFound
            "no version-history branch matches the requested event/version pair") := by
  have hvalid : ∀ idx, FindFirstVersionHistoryIndexByVersionHistoryItem
      executionInfo.VersionHistories (NewVersionHistoryItem eventID version) = Except.ok idx →
      0 ≤ idx ∧ idx < (executionInfo.VersionHistories.Histories.length : Int)
        ∧ ∃ b, GetVersionHistory executionInfo.VersionHistories idx = Except.ok b
            ∧ executionInfo.VersionHistories.Histories[idx.toNat]? = some b := by
    intro idx hfind
    obtain ⟨j, b, hidx, hjlt, hjb, _⟩ := findFirst_ok_valid _ _ idx hfind
    subst hidx
    refine ⟨by omega, by omega, b, getVersionHistory_at _ j b hjb hjlt, ?_⟩
    simpa using hjb
  have hprop : ∀ err, GetXDCCacheValue executionInfo eventID version = Except.error err →
      FindFirstVersionHistoryIndexByVersionHistoryItem executionInfo.VersionHistories
        (NewVersionHistoryItem eventID version) = Except.error err := by
    intro err herr
    cases hfind : FindFirstVersionHistoryIndexByVersionHistoryItem
        executionInfo.VersionHistories (NewVersionHistoryItem eventID version) with
    | error err0 =>
      unfold GetXDCCacheValue at herr
      simp only [hfind] at herr
      rw [Except.error.inj herr]
    | ok idx =>
      obtain ⟨_, _, b, hget, _⟩ := hvalid idx hfind
      unfold GetXDCCacheValue at herr
      simp only [hfind, hget] at herr
      cases herr
  refine ⟨hvalid, hprop, ?_⟩
  intro err herr
  have hfind := hprop err herr
  unfold FindFirstVersionHistoryIndexByVersionHistoryItem at hfind
  by_cases hex : ∃ b ∈ executionInfo.VersionHistories.Histories,
      ContainsVersionHistoryItem b (NewVersionHistoryItem eventID version) = true
  · obtain ⟨j, b, _, _, _, _, hres⟩ := findFirstFrom_ok (NewVersionHistoryItem eventID version)
      executionInfo.VersionHistories.Histories 0 hex
    rw [hres] at hfind
    cases hfind
  · have hno : ∀ b ∈ executionInfo.VersionHistories.Histories,
        ContainsVersionHistoryItem b (NewVersionHistoryItem eventID version) = false := by
      intro b hb
      cases hcb : ContainsVersionHistoryItem b (NewVersionHistoryItem eventID version) with
      | false => rfl
      | true => exact absurd ⟨b, hb, hcb⟩ hex
    rw [findFirstFrom_error _ _ 0 hno] at hfind
    exact (Except.error.inj hfind).symm

theorem locator_second_error_branch_unreachable_witness :
    (0 ≤ (1 : Int) ∧ (1 : Int) < (recordBAC.VersionHistories.Histories.length : Int)
        ∧ ∃ b, GetVersionHistory recordBAC.VersionHistories 1 = Except.ok b
            ∧ recordBAC.VersionHistories.Histories[(1 : Int).toNat]? = some b)
      ∧ FindFirstVersionHistoryIndexByVersionHistoryItem recordAB.VersionHistories
          (NewVersionHistoryItem 999 1)
        = Except.error (GoError.NotFound
            "no version-history branch matches the requested event/version pair") :=
  ⟨(locator_second_error_branch_unreachable recordBAC 10 1).1 1 rfl,
    (locator_second_error_branch_unreachable recordAB 999 1).2.1 _ rfl⟩

/-- C15: while the store does not evict, Put writes only its own key: for every cache
state, every serializer, every value and keys k and k' that differ, Get of k' after
Put of k returns what Get of k' returned before, whether or not the Put found a
NextEventID mismatch or a blob that fails to deserialize. -/
theorem put_leaves_other_keys {σ : Type} (c : Cache σ)
    (view : σ → XDCCacheKey → Option XDCCacheValue) (hc : NoEviction c view)
    (e : XDCCacheImpl σ) (k k' : XDCCacheKey) (v : XDCCacheValue) (hk : k ≠ k') :
    (XDCCacheImpl.Get c (XDCCacheImpl.Put c e k v) k').1 = (XDCCacheImpl.Get c e k').1
      ∧ view (XDCCacheImpl.Put c e k v).cache k' = view e.cache k' := by
  refine ⟨Get_other_after_Put c view hc e k k' v hk, ?_⟩
  rw [Put_view c view hc]
  simp [Ne.symm hk]

theorem put_leaves_other_keys_witness :
    NoEviction Store.cache Store.view
      ∧ key52 ≠ key53
      ∧ ((XDCCacheImpl.Get Store.cache
            (XDCCacheImpl.Put Store.cache
              (putAll Store.cache sampleCache [(key53, value12), (key52, value12)])
              key52 value15Bad) key53).1
          = (XDCCacheImpl.Get Store.cache
              (putAll Store.cache sampleCache [(key53, value12), (key52, value12)]) key53).1
        ∧ Store.view (XDCCacheImpl.Put Store.cache
              (putAll Store.cache sampleCache [(key53, value12), (key52, value12)])
              key52 value15Bad).cache key53
          = Store.view
              (putAll Store.cache sampleCache [(key53, value12), (key52, value12)]).cache
              key53) :=
  ⟨Store.cache_noEviction, by decide,
    put_leaves_other_keys Store.cache Store.view Store.cache_noEviction
      (putAll Store.cache sampleCache [(key53, value12), (key52, value12)])
      key52 key53 value15Bad (by decide)⟩

end XDC
